import Mathlib

/-!
Verification of the asset-ingestion and thumbnail-serving layer of the
`neon-mind` repository (Rust sources `src-tauri/src/lib.rs`,
`src-tauri/src/thumb_protocol.rs`, `src-tauri/src/utils.rs`).

The development shallowly embeds the code: bytes are `List Nat` (each entry a
byte value), text is `List Char`, the filesystem is an explicit association
list from paths to file contents together with fault-injection sets that model
I/O failures, and the external `image` / `fast_image_resize` crates are
abstracted as a record of functions.  Rust panics (`unwrap` on a failing
value) are modelled by an `Option` layer: `none` is a panic.
-/

set_option maxRecDepth 10000

deriving instance DecidableEq for Except

namespace NeonMind

/-! ## SHA-256 (the `sha2` crate's `Sha256`), over byte lists -/

namespace Sha256

/-- Mask to 32 bits. -/
def m32 (x : Nat) : Nat := x &&& 0xFFFFFFFF

/-- Rotate right by `n` within 32 bits. -/
def rotr (n x : Nat) : Nat := m32 ((x >>> n) ||| (x <<< (32 - n)))

/-- The 64 SHA-256 round constants (FIPS 180-4), written in decimal. -/
def K : List Nat :=
  [1116352408, 1899447441, 3049323471, 3921009573, 961987163,
   1508970993, 2453635748, 2870763221, 3624381080, 310598401,
   607225278, 1426881987, 1925078388, 2162078206, 2614888103,
   3248222580, 3835390401, 4022224774, 264347078, 604807628,
   770255983, 1249150122, 1555081692, 1996064986, 2554220882,
   2821834349, 2952996808, 3210313671, 3336571891, 3584528711,
   113926993, 338241895, 666307205, 773529912, 1294757372,
   1396182291, 1695183700, 1986661051, 2177026350, 2456956037,
   2730485921, 2820302411, 3259730800, 3345764771, 3516065817,
   3600352804, 4094571909, 275423344, 430227734, 506948616,
   659060556, 883997877, 958139571, 1322822218, 1537002063,
   1747873779, 1955562222, 2024104815, 2227730452, 2361852424,
   2428436474, 2756734187, 3204031479, 3329325298]

/-- Big-endian packing of bytes into 32-bit words. -/
def toWords : List Nat → List Nat
  | a :: b :: c :: d :: rest =>
      ((((a <<< 8) ||| b) <<< 8 ||| c) <<< 8 ||| d) :: toWords rest
  | _ => []

/-- Big-endian 8-byte encoding of a natural number (the length field). -/
def beBytes8 (n : Nat) : List Nat :=
  [(n >>> 56) &&& 0xFF, (n >>> 48) &&& 0xFF, (n >>> 40) &&& 0xFF,
   (n >>> 32) &&& 0xFF, (n >>> 24) &&& 0xFF, (n >>> 16) &&& 0xFF,
   (n >>> 8) &&& 0xFF, n &&& 0xFF]

/-- SHA-256 padding: `0x80`, zeros to 56 mod 64, then the bit length. -/
def pad (msg : List Nat) : List Nat :=
  let len := msg.length
  let zeros := (119 - len % 64) % 64
  msg ++ 0x80 :: List.replicate zeros 0 ++ beBytes8 (len * 8)

def s0 (x : Nat) : Nat := rotr 7 x ^^^ rotr 18 x ^^^ (x >>> 3)
def s1 (x : Nat) : Nat := rotr 17 x ^^^ rotr 19 x ^^^ (x >>> 10)

/-- Extend the 16 message words to the 64-entry message schedule. -/
def extendW : Nat → List Nat → List Nat
  | 0, ws => ws
  | n + 1, ws =>
      let i := ws.length
      let w := m32 (ws.getD (i - 16) 0 + s0 (ws.getD (i - 15) 0) +
                    ws.getD (i - 7) 0 + s1 (ws.getD (i - 2) 0))
      extendW n (ws ++ [w])

/-- The eight 32-bit working variables. -/
structure Hs where
  a : Nat
  b : Nat
  c : Nat
  d : Nat
  e : Nat
  f : Nat
  g : Nat
  h : Nat

/-- The SHA-256 initial hash value (FIPS 180-4), written in decimal. -/
def init : Hs :=
  ⟨1779033703, 3144134277, 1013904242, 2773480762,
   1359893119, 2600822924, 528734635, 1541459225⟩

/-- One compression round. -/
def round (s : Hs) (k w : Nat) : Hs :=
  let S1 := rotr 6 s.e ^^^ rotr 11 s.e ^^^ rotr 25 s.e
  let ch := (s.e &&& s.f) ^^^ ((s.e ^^^ 0xFFFFFFFF) &&& s.g)
  let t1 := m32 (s.h + S1 + ch + k + w)
  let S0 := rotr 2 s.a ^^^ rotr 13 s.a ^^^ rotr 22 s.a
  let maj := (s.a &&& s.b) ^^^ (s.a &&& s.c) ^^^ (s.b &&& s.c)
  let t2 := m32 (S0 + maj)
  ⟨m32 (t1 + t2), s.a, s.b, s.c, m32 (s.d + t1), s.e, s.f, s.g⟩

/-- Compression of one 64-byte block. -/
def compress (h : Hs) (block : List Nat) : Hs :=
  let ws := extendW 48 (toWords block)
  let f := (K.zip ws).foldl (fun s kw => round s kw.1 kw.2) h
  ⟨m32 (h.a + f.a), m32 (h.b + f.b), m32 (h.c + f.c), m32 (h.d + f.d),
   m32 (h.e + f.e), m32 (h.f + f.f), m32 (h.g + f.g), m32 (h.h + f.h)⟩

/-- Split into 64-byte chunks (fuel-driven; the fuel is always sufficient). -/
def chunksGo : Nat → List Nat → List (List Nat)
  | 0, _ => []
  | _, [] => []
  | n + 1, l => l.take 64 :: chunksGo n (l.drop 64)

def chunks64 (l : List Nat) : List (List Nat) := chunksGo l.length l

/-- Big-endian 4-byte encoding of a 32-bit word. -/
def be4 (n : Nat) : List Nat :=
  [(n >>> 24) &&& 0xFF, (n >>> 16) &&& 0xFF, (n >>> 8) &&& 0xFF, n &&& 0xFF]

end Sha256

/-- The SHA-256 digest of a byte list, as its 32 digest bytes. -/
def sha256 (msg : List Nat) : List Nat :=
  let f := (Sha256.chunks64 (Sha256.pad msg)).foldl Sha256.compress Sha256.init
  Sha256.be4 f.a ++ Sha256.be4 f.b ++ Sha256.be4 f.c ++ Sha256.be4 f.d ++
  Sha256.be4 f.e ++ Sha256.be4 f.f ++ Sha256.be4 f.g ++ Sha256.be4 f.h

/-! ## Lowercase hex encoding (the `hex` crate's `encode`) -/

/-- One lowercase hex digit. -/
def hexDigit (n : Nat) : Char := "0123456789abcdef".data.getD n '0'

/-- Two hex digits for one byte. -/
def hexByte (b : Nat) : List Char := [hexDigit (b / 16), hexDigit (b % 16)]

/-- Lowercase hex encoding of a byte list, as characters. -/
def hexEncode (bs : List Nat) : List Char := (bs.map hexByte).flatten

/-! ## Base64 (the `base64` crate, `general_purpose::STANDARD` engine) -/

/-- Value of a standard-alphabet base64 symbol. -/
def b64Val (c : Char) : Option Nat :=
  if 'A' ≤ c ∧ c ≤ 'Z' then some (c.toNat - 65)
  else if 'a' ≤ c ∧ c ≤ 'z' then some (c.toNat - 97 + 26)
  else if '0' ≤ c ∧ c ≤ '9' then some (c.toNat - 48 + 52)
  else if c = '+' then some 62
  else if c = '/' then some 63
  else none

/-- Strict base64 decoding: four-symbol groups, canonical `=` padding only at
the end, canonical (zero) trailing bits — the checks the `STANDARD` engine
performs.  `none` models a `DecodeError`. -/
def base64DecodeGo : List Char → Option (List Nat)
  | [] => some []
  | c1 :: c2 :: c3 :: c4 :: rest => do
      let a ← b64Val c1
      let b ← b64Val c2
      if c3 = '=' then
        if c4 = '=' ∧ rest = [] ∧ b % 16 = 0 then
          some [(a <<< 2) ||| (b >>> 4)]
        else none
      else do
        let c ← b64Val c3
        if c4 = '=' then
          if rest = [] ∧ c % 4 = 0 then
            some [(a <<< 2) ||| (b >>> 4), ((b &&& 0xF) <<< 4) ||| (c >>> 2)]
          else none
        else do
          let d ← b64Val c4
          let tl ← base64DecodeGo rest
          some (((a <<< 2) ||| (b >>> 4)) :: (((b &&& 0xF) <<< 4) ||| (c >>> 2)) ::
                (((c &&& 0x3) <<< 6) ||| d) :: tl)
  | _ => none

/-- The `STANDARD.decode` engine applied to a character list. -/
def base64Decode (s : List Char) : Option (List Nat) := base64DecodeGo s

/-! ## Text utilities shared by the embedded functions -/

/-- A filesystem path (or any piece of request text), as its characters. -/
abbrev Path := List Char

/-- Mirrors Rust `str::split` with a one-character pattern: splits at every
occurrence, keeping empty segments; never returns an empty list. -/
def splitChar (sep : Char) : List Char → List (List Char)
  | [] => [[]]
  | c :: rest =>
      if c = sep then [] :: splitChar sep rest
      else
        match splitChar sep rest with
        | s :: ss => (c :: s) :: ss
        | [] => [[c]]

/-- The substring `save_temp_image` base64-decodes (lib.rs lines 54-55):
`split[1]` when splitting on commas yields more than one segment — the
segment between the first and second commas — else the whole input. -/
def payload (s : List Char) : List Char :=
  let parts := splitChar ',' s
  if parts.length > 1 then parts.getD 1 [] else parts.getD 0 []

/-- Does `l` start with `pre`?  Mirrors Rust `str::starts_with`. -/
def startsWithL : Path → Path → Bool
  | a :: pre, b :: l => if a = b then startsWithL pre l else false
  | [], _ => true
  | _, [] => false

/-- The `_temp/` marker for temporary virtual paths. -/
def tempPre : Path := "_temp/".data

/-- Rust `Path::is_absolute`, modelled for unix: the string starts with `/`. -/
def isAbsolute (p : Path) : Bool := startsWithL ['/'] p

/-- Rust `Path::join`: `dir ++ "/" ++ name` for a relative `name`, but when
`name` is absolute it replaces the base entirely
(`Path::new("/etc").join("/bin/sh") == "/bin/sh"`). -/
def joinPath (dir name : Path) : Path :=
  if isAbsolute name then name else dir ++ '/' :: name

/-- The final path component (after the last `/`). -/
def lastComponent (p : Path) : Path :=
  (p.reverse.takeWhile (fun c => decide (c ≠ '/'))).reverse

/-- Rust `Path::extension`: the characters after the last dot of the final
component, when that dot is not the component's first character. -/
def extension (p : Path) : Option Path :=
  match lastComponent p with
  | [] => none
  | _ :: rest =>
      if '.' ∈ rest then
        some ((rest.reverse.takeWhile (fun d => decide (d ≠ '.'))).reverse)
      else none

/-! ## The filesystem model

File contents by path, plus fault-injection sets modelling I/O failures:
`faults` are paths on which every read/write/copy/remove (and rename) fails;
`renameFaults` are paths on which only `fs::rename` fails (modelling
cross-device moves, which `commit_assets` recovers from by copy+delete).
Directories are not modelled; `create_dir_all` calls are elided. -/

/-- Association-list lookup by path. -/
def lookupFiles : List (Path × List Nat) → Path → Option (List Nat)
  | [], _ => none
  | (q, v) :: rest, p => if q = p then some v else lookupFiles rest p

/-- Remove every entry at a path. -/
def removeFiles : List (Path × List Nat) → Path → List (Path × List Nat)
  | [], _ => []
  | (q, v) :: rest, p =>
      if q = p then removeFiles rest p else (q, v) :: removeFiles rest p

structure FS where
  files : List (Path × List Nat)
  faults : List Path
  renameFaults : List Path
deriving DecidableEq

def FS.lookup (fs : FS) (p : Path) : Option (List Nat) := lookupFiles fs.files p

/-- Rust `Path::exists` (false rather than an error on trouble). -/
def FS.pathExists (fs : FS) (p : Path) : Bool := (fs.lookup p).isSome

/-- Rust `fs::read`. -/
def FS.read (fs : FS) (p : Path) : Except String (List Nat) :=
  if p ∈ fs.faults then .error "read fault"
  else
    match fs.lookup p with
    | some v => .ok v
    | none => .error "file not found"

/-- Rust `fs::write`. -/
def FS.write (fs : FS) (p : Path) (v : List Nat) : Except String FS :=
  if p ∈ fs.faults then .error "write fault"
  else .ok { fs with files := (p, v) :: removeFiles fs.files p }

/-- Rust `fs::rename` (moves, overwriting the destination like the unix call). -/
def FS.rename (fs : FS) (src dst : Path) : Except String FS :=
  if src ∈ fs.faults ∨ dst ∈ fs.faults ∨ src ∈ fs.renameFaults ∨
     dst ∈ fs.renameFaults then .error "rename fault"
  else
    match fs.lookup src with
    | some v =>
        .ok { fs with files := (dst, v) :: removeFiles (removeFiles fs.files src) dst }
    | none => .error "rename source missing"

/-- Rust `fs::copy` (overwrites the destination). -/
def FS.copy (fs : FS) (src dst : Path) : Except String FS :=
  if src ∈ fs.faults ∨ dst ∈ fs.faults then .error "copy fault"
  else
    match fs.lookup src with
    | some v => .ok { fs with files := (dst, v) :: removeFiles fs.files dst }
    | none => .error "copy source missing"

/-- Rust `fs::remove_file`. -/
def FS.removeFile (fs : FS) (p : Path) : Except String FS :=
  if p ∈ fs.faults then .error "remove fault"
  else if (fs.lookup p).isSome then .ok { fs with files := removeFiles fs.files p }
  else .error "remove target missing"

/-! ## utils.rs / lib.rs: content hashing and ingestion commands -/

/-- The function `get_hash_filename` (utils.rs lines 17-22 and lib.rs lines 39-44):
`"{hex(sha256(data))}.{ext}"`. -/
def get_hash_filename (data : List Nat) (ext : Path) : Path :=
  hexEncode (sha256 data) ++ '.' :: ext

/-- The command `save_temp_image` (lib.rs lines 50-79).  Decodes the comma-selected
payload, writes the content-addressed file into the temp directory when it is
absent, and returns the `_temp/` virtual path. -/
def save_temp_image (tempDir : Path) (fs : FS) (base64Data : Path) :
    Except String (Path × FS) :=
  match base64Decode (payload base64Data) with
  | none => .error "invalid base64"
  | some imageData =>
      let filename := get_hash_filename imageData "png".data
      let filePath := joinPath tempDir filename
      if fs.pathExists filePath then .ok (tempPre ++ filename, fs)
      else
        match fs.write filePath imageData with
        | .error e => .error e
        | .ok fs' => .ok (tempPre ++ filename, fs')

/-- The helper `import_external_file` (lib.rs lines 82-102): read, hash with the source's
extension, copy into the asset store when absent. -/
def import_external_file (fs : FS) (srcPath targetDir : Path) :
    Except String (Path × FS) :=
  match fs.read srcPath with
  | .error e => .error ("Read error: " ++ e)
  | .ok data =>
      let ext := (extension srcPath).getD "bin".data
      let filename := get_hash_filename data ext
      let destPath := joinPath targetDir filename
      if fs.pathExists destPath then .ok ("assets/".data ++ filename, fs)
      else
        match fs.write destPath data with
        | .error e => .error ("Write error: " ++ e)
        | .ok fs' => .ok ("assets/".data ++ filename, fs')

/-- One item of `commit_assets` (lib.rs lines 119-161).  Temp-prefixed items
are moved (rename, falling back to copy+delete) and a failure of that move
propagates as an error; absolute existing items are imported with per-item
fallback to the original path; everything else passes through. -/
def commitStep (tempDir targetDir : Path) (fs : FS) (rPath : Path) :
    Except String (Path × FS) :=
  if startsWithL tempPre rPath then
    let filename := rPath.drop 6
    let srcPath := joinPath tempDir filename
    let destPath := joinPath targetDir filename
    if fs.pathExists srcPath then
      if fs.pathExists destPath then
        match fs.removeFile srcPath with
        | .ok fs' => .ok ("assets/".data ++ filename, fs')
        | .error _ => .ok ("assets/".data ++ filename, fs)
      else
        match fs.rename srcPath destPath with
        | .ok fs' => .ok ("assets/".data ++ filename, fs')
        | .error _ =>
            match fs.copy srcPath destPath with
            | .error e => .error e
            | .ok fs₁ =>
                match fs₁.removeFile srcPath with
                | .error e => .error e
                | .ok fs₂ => .ok ("assets/".data ++ filename, fs₂)
    else .ok ("assets/".data ++ filename, fs)
  else
    if isAbsolute rPath && fs.pathExists rPath then
      match import_external_file fs rPath targetDir with
      | .ok (rel, fs') => .ok (rel, fs')
      | .error _ => .ok (rPath, fs)
    else .ok (rPath, fs)

/-- The fold over `runtime_paths` (lib.rs lines 117-163). -/
def commitList (tempDir targetDir : Path) (fs : FS) :
    List Path → Except String (List Path × FS)
  | [] => .ok ([], fs)
  | p :: rest =>
      match commitStep tempDir targetDir fs p with
      | .error e => .error e
      | .ok (o, fs') =>
          match commitList tempDir targetDir fs' rest with
          | .error e => .error e
          | .ok (os, fs'') => .ok (o :: os, fs'')

/-- The command `commit_assets` (lib.rs lines 104-164); the target directory is
`project_root/assets`. -/
def commit_assets (tempDir : Path) (fs : FS) (projectRoot : Path)
    (runtimePaths : List Path) : Except String (List Path × FS) :=
  commitList tempDir (joinPath projectRoot "assets".data) fs runtimePaths

/-- The router `resolve_real_path` (identical in lib.rs lines 170-195 and
thumb_protocol.rs lines 129-148). -/
def resolve_real_path (tempDir : Path) (fs : FS) (pathStr : Path)
    (projectRoot : Option Path) : Option Path :=
  if startsWithL tempPre pathStr then some (joinPath tempDir (pathStr.drop 6))
  else
    match projectRoot with
    | some root =>
        if isAbsolute pathStr then
          if fs.pathExists pathStr then some pathStr else none
        else some (joinPath root pathStr)
    | none => if fs.pathExists pathStr then some pathStr else none

/-- The output list of a commit run, when the run succeeded. -/
def commitOutputs (r : Except String (List Path × FS)) : Option (List Path) :=
  match r with
  | .ok (os, _) => some os
  | .error _ => none

/-! ## MIME types and text encodings used by the thumbnail pipeline -/

/-- ASCII lowercasing of one character (`str::to_lowercase` on extensions). -/
def lowerChar (c : Char) : Char :=
  if 'A' ≤ c ∧ c ≤ 'Z' then Char.ofNat (c.toNat + 32) else c

/-- Extension-derived MIME type.  This is the explicit table of lib.rs lines
231-245; `mime_guess::from_path(..).first_or_octet_stream()` in
thumb_protocol.rs lines 28-32 is modelled by the same table restricted to the
common image types. -/
def get_mime_type (p : Path) : String :=
  match extension p with
  | none => "application/octet-stream"
  | some e0 =>
      let e := e0.map lowerChar
      if e = "png".data then "image/png"
      else if e = "gif".data then "image/gif"
      else if e = "webp".data then "image/webp"
      else if e = "svg".data then "image/svg+xml"
      else if e = "jpg".data ∨ e = "jpeg".data then "image/jpeg"
      else "application/octet-stream"

/-- UTF-8 encoding of one code point. -/
def utf8Char (n : Nat) : List Nat :=
  if n < 0x80 then [n]
  else if n < 0x800 then [0xC0 ||| (n >>> 6), 0x80 ||| (n &&& 0x3F)]
  else if n < 0x10000 then
    [0xE0 ||| (n >>> 12), 0x80 ||| ((n >>> 6) &&& 0x3F), 0x80 ||| (n &&& 0x3F)]
  else
    [0xF0 ||| (n >>> 18), 0x80 ||| ((n >>> 12) &&& 0x3F),
     0x80 ||| ((n >>> 6) &&& 0x3F), 0x80 ||| (n &&& 0x3F)]

/-- UTF-8 bytes of a character list (Rust `str::as_bytes`). -/
def utf8Bytes (s : List Char) : List Nat :=
  (s.map (fun c => utf8Char c.toNat)).flatten

/-- Decimal digits of a natural number (Rust `format!("{}", n)`). -/
def natChars (n : Nat) : List Char := Nat.toDigits 10 n

/-! ## The thumbnail pipeline (thumb_protocol.rs) -/

/-- Abstraction of the `image` and `fast_image_resize` crates as used by
thumb_protocol.rs.  `dims` is `image::image_dimensions` applied to the file's
bytes (`none` = probe error); `decode` is `ImageReader::decode` (`none` =
decode error); `pixelType` is `DynamicImage::pixel_type` from
`fast_image_resize::IntoImageView`; `resize` is the Lanczos3 convolution
resize of the decoded image to the given width and height; `encode w h px` is
the PNG encoding of the resized buffer at those dimensions.  The resizer's
and encoder's own failure modes are not modelled (the source and destination
buffers are constructed consistently). -/
structure ImageLib where
  dims : List Nat → Option (Nat × Nat)
  decode : List Nat → Option (List Nat)
  pixelType : List Nat → Option Nat
  resize : List Nat → Nat → Nat → List Nat
  encode : Nat → Nat → List Nat → List Nat

namespace ThumbProto

/-- The cache file path of thumb_protocol.rs lines 57-66:
`{thumbDir}/{hex(sha256("{path}?w={w}"))}_{w}.png`. -/
def cachePathOf (thumbDir filePath : Path) (targetWidth : Nat) : Path :=
  joinPath thumbDir
    (hexEncode (sha256 (utf8Bytes (filePath ++ "?w=".data ++ natChars targetWidth))) ++
      '_' :: natChars targetWidth ++ ".png".data)

/-- The pipeline `process_thumbnail` (thumb_protocol.rs lines 35-126).  The outer `Option`
models panics: the code calls `.unwrap()` on `decode()` (line 79) and on
`pixel_type()` (line 82), so a failure of either after a successful dimension
probe panics the worker thread (`none`).  `image_dimensions` is modelled as
reading the file's bytes and applying `lib.dims`; any failure of either maps
to the probe error message, as in lines 46-47. -/
def process_thumbnail (lib : ImageLib) (thumbDir : Path) (fs : FS)
    (filePath : Path) (targetWidth : Nat) :
    Option (Except String (List Nat × String) × FS) :=
  if fs.pathExists filePath = false then
    some (.error "Source file not found", fs)
  else
    match fs.read filePath with
    | .error _ => some (.error "无法获取图片宽度", fs)
    | .ok probeBytes =>
        match lib.dims probeBytes with
        | none => some (.error "无法获取图片宽度", fs)
        | some (origWidth, origHeight) =>
            if targetWidth = 0 ∨ origWidth < targetWidth then
              match fs.read filePath with
              | .error e => some (.error e, fs)
              | .ok buffer => some (.ok (buffer, get_mime_type filePath), fs)
            else
              let cachePath := cachePathOf thumbDir filePath targetWidth
              if fs.pathExists cachePath then
                match fs.read cachePath with
                | .error e => some (.error e, fs)
                | .ok buffer => some (.ok (buffer, "image/png"), fs)
              else
                match fs.read filePath with
                | .error e => some (.error ("Failed to open image: " ++ e), fs)
                | .ok fileBytes =>
                    match lib.decode fileBytes with
                    | none => none
                    | some img =>
                        match lib.pixelType img with
                        | none => none
                        | some _ =>
                            let targetHeight := origHeight * targetWidth / origWidth
                            let buffer := lib.encode targetWidth targetHeight
                                            (lib.resize img targetWidth targetHeight)
                            match fs.write cachePath buffer with
                            | .error e => some (.error e, fs)
                            | .ok fs' => some (.ok (buffer, "image/png"), fs')

end ThumbProto

/-! ## The legacy thumbnail pipeline (lib.rs lines 199-291) -/

/-- Abstraction of the `image` crate as used by the lib.rs variant:
`openImg` is `image::open` on the file's bytes (`none` = error, mapped to a
message — no panic); `thumbnail` is `DynamicImage::thumbnail(w, w)`;
`encodeJpeg` is `write_to(.., ImageFormat::Jpeg)` (`none` = error, mapped). -/
structure ImageLibJ where
  openImg : List Nat → Option (List Nat)
  thumbnail : List Nat → Nat → List Nat
  encodeJpeg : List Nat → Option (List Nat)

namespace LibRs

/-- The cache file path of lib.rs lines 250-263:
`{thumbDir}/{hex(sha256("{path}?w={w}"))}.jpg`. -/
def cachePathOf (thumbDir filePath : Path) (targetWidth : Nat) : Path :=
  joinPath thumbDir
    (hexEncode (sha256 (utf8Bytes (filePath ++ "?w=".data ++ natChars targetWidth))) ++
      ".jpg".data)

/-- The legacy `process_thumbnail` (lib.rs lines 217-291).  Only `target_width == 0` is a
passthrough; any nonzero width, including widths above the native width, goes
through `thumbnail(w, w)` and a JPEG re-encode.  All failures are mapped to
error values (no `unwrap`), so this variant is total. -/
def process_thumbnail (lib : ImageLibJ) (thumbDir : Path) (fs : FS)
    (filePath : Path) (targetWidth : Nat) :
    Except String (List Nat × String) × FS :=
  if fs.pathExists filePath = false then
    (.error "Source file not found", fs)
  else if targetWidth = 0 then
    match fs.read filePath with
    | .error e => (.error e, fs)
    | .ok buffer => (.ok (buffer, get_mime_type filePath), fs)
  else
    let cachePath := cachePathOf thumbDir filePath targetWidth
    if fs.pathExists cachePath then
      match fs.read cachePath with
      | .error e => (.error e, fs)
      | .ok buffer => (.ok (buffer, "image/jpeg"), fs)
    else
      match fs.read filePath with
      | .error e => (.error ("Failed to open image: " ++ e), fs)
      | .ok fileBytes =>
          match lib.openImg fileBytes with
          | none => (.error "Failed to open image: decode error", fs)
          | some img =>
              match lib.encodeJpeg (lib.thumbnail img targetWidth) with
              | none => (.error "encode error", fs)
              | some buffer =>
                  match fs.write cachePath buffer with
                  | .error e => (.error e, fs)
                  | .ok fs' => (.ok (buffer, "image/jpeg"), fs')

end LibRs

/-! ## The request dispatchers -/

/-- Hex digit value (for percent-decoding). -/
def hexVal (c : Char) : Option Nat :=
  if '0' ≤ c ∧ c ≤ '9' then some (c.toNat - 48)
  else if 'a' ≤ c ∧ c ≤ 'f' then some (c.toNat - 97 + 10)
  else if 'A' ≤ c ∧ c ≤ 'F' then some (c.toNat - 65 + 10)
  else none

/-- The crate function `urlencoding::decode`, modelled over ASCII: `%XX` becomes the byte `XX`,
malformed escapes pass through unchanged.  (The crate's only failure mode —
invalid UTF-8 after unescaping — cannot arise in the single-byte model, so
the handlers' `unwrap_or`/`if let Ok` fallbacks are never taken.) -/
def urldecode : List Char → List Char
  | [] => []
  | '%' :: a :: b :: rest =>
      match hexVal a, hexVal b with
      | some x, some y => Char.ofNat (16 * x + y) :: urldecode rest
      | _, _ => '%' :: urldecode (a :: b :: rest)
  | c :: rest => c :: urldecode rest

/-- Rust `str::split_once` at a character. -/
def splitOnce (sep : Char) : List Char → Option (List Char × List Char)
  | [] => none
  | c :: rest =>
      if c = sep then some ([], rest)
      else
        match splitOnce sep rest with
        | some (k, v) => some (c :: k, v)
        | none => none

/-- One decimal digit's value. -/
def digitVal (c : Char) : Option Nat :=
  if '0' ≤ c ∧ c ≤ '9' then some (c.toNat - 48) else none

def parseDigitsGo : List Char → Nat → Option Nat
  | [], acc => some acc
  | c :: rest, acc =>
      match digitVal c with
      | none => none
      | some d => parseDigitsGo rest (acc * 10 + d)

/-- Rust `str::parse::<u32>`: optional leading `+`, at least one digit, all
digits, value below `2^32`. -/
def parseU32 (s : List Char) : Option Nat :=
  let t := match s with | '+' :: rest => rest | _ => s
  match t with
  | [] => none
  | _ =>
      match parseDigitsGo t 0 with
      | some v => if v < 4294967296 then some v else none
      | none => none

/-- The query-parameter fold of both handlers (lib.rs lines 333-349,
thumb_protocol.rs lines 169-183): each `w` pair reassigns the width to
`parse(v).unwrap_or(default)`; each `root` pair reassigns the decoded root. -/
def parseParams (default : Nat) :
    List (List Char) → Nat × Option (List Char) → Nat × Option (List Char)
  | [], st => st
  | pair :: rest, (w, r) =>
      match splitOnce '=' pair with
      | none => parseParams default rest (w, r)
      | some (k, v) =>
          if k = "w".data then
            parseParams default rest ((parseU32 v).getD default, r)
          else if k = "root".data then
            parseParams default rest (w, some (urldecode v))
          else parseParams default rest (w, r)

/-- Scheme stripping (lib.rs lines 353-359, thumb_protocol.rs lines 185-191). -/
def stripThumbScheme (raw : List Char) : List Char :=
  if startsWithL "thumb://localhost/".data raw then raw.drop 18
  else if startsWithL "thumb://".data raw then raw.drop 8
  else raw

/-- URI parsing shared by both handlers: split path from query at `?`, fold
the query pairs (the width defaulting to `default`), strip the scheme from
the path part and percent-decode it. -/
def parse_request (default : Nat) (uri : List Char) :
    Nat × Option (List Char) × List Char :=
  let parts := splitChar '?' uri
  let st :=
    if parts.length > 1 then
      parseParams default (splitChar '&' (parts.getD 1 [])) (default, none)
    else (default, none)
  (st.1, st.2, urldecode (stripThumbScheme (parts.getD 0 [])))

/-- An HTTP-style response: status, optional `Content-Type`, body bytes. -/
structure Response where
  status : Nat
  mime : Option String
  body : List Nat
deriving DecidableEq

/-- The dispatcher `protocol_handler` (thumb_protocol.rs lines 151-228): default width `0`;
`404` when resolution fails, `200` with the produced MIME on success, `500`
with the message bytes on failure.  `none` is a worker panic propagated from
`process_thumbnail`. -/
def protocol_handler (lib : ImageLib) (tempDir thumbDir : Path) (fs : FS)
    (uri : List Char) : Option (Response × FS) :=
  let st := parse_request 0 uri
  match resolve_real_path tempDir fs st.2.2 st.2.1 with
  | none => some (⟨404, none, utf8Bytes "File not found".data⟩, fs)
  | some real =>
      match ThumbProto.process_thumbnail lib thumbDir fs real st.1 with
      | none => none
      | some (.ok (data, mime), fs') => some (⟨200, some mime, data⟩, fs')
      | some (.error e, fs') => some (⟨500, none, utf8Bytes e.data⟩, fs')

/-- The protocol closure registered by `run` (lib.rs lines 313-405): default
width `500`, the lib.rs `process_thumbnail`; total (that variant never
panics). -/
def run_handler (lib : ImageLibJ) (tempDir thumbDir : Path) (fs : FS)
    (uri : List Char) : Response × FS :=
  let st := parse_request 500 uri
  match resolve_real_path tempDir fs st.2.2 st.2.1 with
  | none => (⟨404, none, utf8Bytes "File not found".data⟩, fs)
  | some real =>
      match LibRs.process_thumbnail lib thumbDir fs real st.1 with
      | (.ok (data, mime), fs') => (⟨200, some mime, data⟩, fs')
      | (.error e, fs') => (⟨500, none, utf8Bytes e.data⟩, fs')

/-! ## Concrete instantiations of the image-library abstraction

Used to evaluate the pipeline at concrete inputs.  `probeLib` reads the
dimensions off the first two bytes of the file and `encode w h px` tags the
produced dimensions onto the output, so a concrete run exposes the size the
encoder was invoked with.  `truncatedLib` models a truncated image file: the
header probe succeeds but the full decode fails.  `upscaleJLib` instantiates
the lib.rs abstraction with a thumbnail operation that records the requested
width. -/

def probeLib : ImageLib where
  dims := fun bytes => match bytes with | w :: h :: _ => some (w, h) | _ => none
  decode := fun bytes => some bytes
  pixelType := fun _ => some 0
  resize := fun _ _ _ => []
  encode := fun w h px => w :: h :: px

def truncatedLib : ImageLib where
  dims := fun _ => some (100, 50)
  decode := fun _ => none
  pixelType := fun _ => some 0
  resize := fun _ _ _ => []
  encode := fun w h px => w :: h :: px

def upscaleJLib : ImageLibJ where
  openImg := fun bytes => some bytes
  thumbnail := fun _ w => [w]
  encodeJpeg := fun t => some (9 :: t)

/-- The height formula the spec states for the resize step:
`round(nativeHeight * targetWidth / nativeWidth)` with round-half-up
(`f64::round` for nonnegative values): `roundHalfUp a b = round(a / b)`. -/
def roundHalfUp (a b : Nat) : Nat := (2 * a + b) / (2 * b)

/-! ## Predicates for the commit idempotence analysis -/

/-- Is `p` strictly inside directory `d`, i.e. does it start with `d ++ "/"`? -/
def underDir (d p : Path) : Bool := startsWithL (d ++ ['/']) p

/-- How a successful `commit_assets` item may change the filesystem, with
`td` the temp directory and `gd` the asset (target) directory: fault sets are
unchanged; an existing file either keeps its content or is a non-faulted
temp-directory file that was removed; a file of the new state either existed
unchanged or is a non-faulted asset-directory file created into a previously
absent path. -/
structure Evol (td gd : Path) (fs fs' : FS) : Prop where
  faults_eq : fs'.faults = fs.faults
  rn_eq : fs'.renameFaults = fs.renameFaults
  keep : ∀ p v, fs.lookup p = some v →
    fs'.lookup p = some v ∨
      (underDir td p = true ∧ p ∉ fs.faults ∧ fs'.lookup p = none)
  new : ∀ p v, fs'.lookup p = some v →
    fs.lookup p = some v ∨
      (underDir gd p = true ∧ p ∉ fs.faults ∧ fs.lookup p = none)

/-- An item is settled in a state when re-running it returns the same output
and leaves the state untouched. -/
def Settled (td gd : Path) (fs : FS) (p o : Path) : Prop :=
  commitStep td gd fs p = .ok (o, fs)

/-! # Theorems -/

/-! ## Basic text lemmas -/

theorem startsWithL_append_self (a b : Path) : startsWithL a (a ++ b) = true := by
  induction a with
  | nil => cases b <;> rfl
  | cons c t ih => simp [startsWithL, ih]

theorem startsWithL_iff (a p : Path) :
    startsWithL a p = true ↔ ∃ b, p = a ++ b := by
  constructor
  · intro h
    induction a generalizing p with
    | nil => exact ⟨p, rfl⟩
    | cons c t ih =>
        cases p with
        | nil => simp [startsWithL] at h
        | cons d q =>
            rw [startsWithL] at h
            by_cases hcd : c = d
            · subst hcd
              simp only [if_pos rfl] at h
              obtain ⟨b, hb⟩ := ih q h
              exact ⟨b, by simp [hb]⟩
            · simp [hcd] at h
  · rintro ⟨b, rfl⟩
    exact startsWithL_append_self a b

theorem not_startsWithL_ne (a p b : Path) (h : startsWithL a p = false) :
    p ≠ a ++ b := by
  intro heq
  rw [heq, startsWithL_append_self] at h
  exact Bool.true_eq_false.mp h

theorem joinPath_rel (dir name : Path) (h : isAbsolute name = false) :
    joinPath dir name = dir ++ '/' :: name := by
  simp [joinPath, h]

theorem underDir_joinPath (d f : Path) (hrel : isAbsolute f = false) :
    underDir d (joinPath d f) = true := by
  have h1 : joinPath d f = (d ++ ['/']) ++ f := by simp [joinPath_rel d f hrel]
  rw [underDir, h1, startsWithL_append_self]

theorem not_underDir_ne (d p f : Path) (h : underDir d p = false)
    (hrel : isAbsolute f = false) : p ≠ joinPath d f := by
  intro heq
  rw [heq, underDir_joinPath d f hrel] at h
  exact Bool.true_eq_false.mp h

theorem underDir_disjoint (d₁ d₂ : Path) (hlen : d₁.length = d₂.length)
    (hne : d₁ ≠ d₂) :
    ∀ r : Path, ¬(underDir d₁ r = true ∧ underDir d₂ r = true) := by
  rintro r ⟨h1, h2⟩
  obtain ⟨s₁, hs₁⟩ := (startsWithL_iff _ _).mp h1
  obtain ⟨s₂, hs₂⟩ := (startsWithL_iff _ _).mp h2
  rw [hs₁] at hs₂
  have hlen' : (d₁ ++ ['/']).length = (d₂ ++ ['/']).length := by simp [hlen]
  have h3 : d₁ ++ ['/'] = d₂ ++ ['/'] := (List.append_inj hs₂ hlen').1
  have h4 : d₁ = d₂ := by
    have h5 := congrArg (List.take d₁.length) h3
    rwa [List.take_left, hlen, List.take_left] at h5
  exact hne h4

theorem joinPath_td_gd_ne (td gd f : Path)
    (Hdisj : ∀ r : Path, ¬(underDir td r = true ∧ underDir gd r = true))
    (hrel : isAbsolute f = false) : joinPath td f ≠ joinPath gd f := by
  intro e
  exact Hdisj (joinPath td f)
    ⟨underDir_joinPath td f hrel, by rw [e]; exact underDir_joinPath gd f hrel⟩

theorem hexDigit_ne_slash (n : Nat) : hexDigit n ≠ '/' := by
  by_cases h : n < 16
  · unfold hexDigit
    interval_cases n <;> decide
  · unfold hexDigit
    rw [List.getD_eq_default _ _ (by simpa using Nat.le_of_not_lt h)]
    decide

theorem isAbsolute_cons (c : Char) (rest : Path) (h : c ≠ '/') :
    isAbsolute (c :: rest) = false := by
  simp only [isAbsolute, startsWithL]
  rw [if_neg (fun e : '/' = c => h e.symm)]

theorem get_hash_filename_not_abs (data : List Nat) (ext : Path) :
    isAbsolute (get_hash_filename data ext) = false := by
  unfold get_hash_filename
  cases hs : sha256 data with
  | nil =>
      simp only [hs, hexEncode, List.map_nil, List.flatten_nil, List.nil_append]
      exact isAbsolute_cons '.' ext (by decide)
  | cons x xs =>
      have h1 : hexEncode (x :: xs) =
          hexDigit (x / 16) :: (hexDigit (x % 16) :: (xs.map hexByte).flatten) := by
        simp [hexEncode, hexByte]
      rw [h1, List.cons_append]
      exact isAbsolute_cons _ _ (hexDigit_ne_slash _)

/-! ## C4 and C10: `resolve_real_path` -/

/-- Claim C4 (counterexample to the claim as stated): a temp-prefixed string
does not always resolve into the process temp directory, because
`Path::join` replaces the base when the stripped remainder is absolute.  At
`"_temp//abs"` the remainder is `"/abs"`, so resolution yields `"/abs"`
itself — a path outside the temp directory. -/
theorem resolve_temp_escape_counterexample :
    resolve_real_path "/t".data ⟨[], [], []⟩ "_temp//abs".data (some "/p".data) =
      some "/abs".data ∧
    underDir "/t".data "/abs".data = false := by
  decide

/-- Claim C4 (amended): `resolve_real_path` is deterministic (a pure function
of its arguments) and follows the documented precedence with `Path::join`
semantics on the temp branch: a temp-prefixed string resolves to the join of
the stripped remainder onto the temp directory, for any project root (the
root is ignored) — inside the temp directory whenever the remainder is
relative, while an absolute remainder replaces the base and escapes; a
relative (non-absolute) non-temp string with a root resolves against the
root, never through the absolute-path existence check; an absolute non-temp
string resolves to itself exactly when it exists, else resolution is
`none`. -/
theorem resolve_real_path_precedence (tempDir : Path) (fs : FS) (p : Path) :
    (startsWithL tempPre p = true →
      ∀ root, resolve_real_path tempDir fs p root =
        some (joinPath tempDir (p.drop 6))) ∧
    (startsWithL tempPre p = true → isAbsolute (p.drop 6) = false →
      ∀ root, resolve_real_path tempDir fs p root =
        some (tempDir ++ '/' :: p.drop 6)) ∧
    (startsWithL tempPre p = false → isAbsolute p = false →
      ∀ root, resolve_real_path tempDir fs p (some root) =
        some (root ++ '/' :: p)) ∧
    (startsWithL tempPre p = false → isAbsolute p = true →
      ∀ root, resolve_real_path tempDir fs p root =
        if fs.pathExists p then some p else none) := by
  refine ⟨?_, ?_, ?_, ?_⟩
  · intro h root
    simp [resolve_real_path, h]
  · intro h hrel root
    simp [resolve_real_path, h, joinPath_rel tempDir _ hrel]
  · intro h1 h2 root
    simp [resolve_real_path, h1, h2, joinPath_rel root _ h2]
  · intro h1 h2 root
    cases root with
    | none => simp [resolve_real_path, h1]
    | some r => simp [resolve_real_path, h1, h2]

theorem resolve_real_path_precedence_witness :
    resolve_real_path "/t".data ⟨[], [], []⟩ "_temp/a.png".data (some "/p".data) =
      some (joinPath "/t".data ("_temp/a.png".data.drop 6)) ∧
    resolve_real_path "/t".data ⟨[], [], []⟩ "_temp/a.png".data (some "/p".data) =
      some ("/t".data ++ '/' :: "_temp/a.png".data.drop 6) ∧
    resolve_real_path "/t".data ⟨[], [], []⟩ "rel.png".data (some "/p".data) =
      some ("/p".data ++ '/' :: "rel.png".data) ∧
    resolve_real_path "/t".data ⟨[], [], []⟩ "/abs.png".data (some "/p".data) =
      (if FS.pathExists ⟨[], [], []⟩ "/abs.png".data then some "/abs.png".data
       else none) :=
  ⟨(resolve_real_path_precedence "/t".data ⟨[], [], []⟩ _).1 (by decide) _,
   (resolve_real_path_precedence "/t".data ⟨[], [], []⟩ _).2.1 (by decide)
     (by decide) _,
   (resolve_real_path_precedence "/t".data ⟨[], [], []⟩ _).2.2.1 (by decide)
     (by decide) _,
   (resolve_real_path_precedence "/t".data ⟨[], [], []⟩ _).2.2.2 (by decide)
     (by decide) _⟩

/-- Claim C10: with no project root, a non-temp path string (in particular a
relative one) falls through to the existence check: it resolves to itself
exactly when a file exists at that path (interpreted against the process
working directory), and to `none` otherwise. -/
theorem resolve_real_path_relative_noroot (tempDir : Path) (fs : FS) (p : Path)
    (h1 : startsWithL tempPre p = false) (_h2 : isAbsolute p = false) :
    resolve_real_path tempDir fs p none =
      if fs.pathExists p then some p else none := by
  simp [resolve_real_path, h1]

theorem resolve_real_path_relative_noroot_witness :
    (resolve_real_path "/t".data ⟨[("rel.png".data, [1])], [], []⟩ "rel.png".data
        none =
      if FS.pathExists ⟨[("rel.png".data, [1])], [], []⟩ "rel.png".data then
        some "rel.png".data
      else none) ∧
    (resolve_real_path "/t".data ⟨[], [], []⟩ "other.png".data none =
      if FS.pathExists (⟨[], [], []⟩ : FS) "other.png".data then
        some "other.png".data
      else none) :=
  ⟨resolve_real_path_relative_noroot "/t".data _ _ (by decide) (by decide),
   resolve_real_path_relative_noroot "/t".data _ _ (by decide) (by decide)⟩

/-! ## Split and payload lemmas -/

theorem splitChar_not_mem (sep : Char) (s : List Char) (h : sep ∉ s) :
    splitChar sep s = [s] := by
  induction s with
  | nil => rfl
  | cons c rest ih =>
      have hc : ¬ c = sep := fun e => h (e ▸ List.mem_cons_self c rest)
      have hr : sep ∉ rest := fun m => h (List.mem_cons_of_mem _ m)
      simp [splitChar, hc, ih hr]

theorem splitChar_append (sep : Char) (a rest : List Char) (h : sep ∉ a) :
    splitChar sep (a ++ sep :: rest) = a :: splitChar sep rest := by
  induction a with
  | nil => simp [splitChar]
  | cons c t ih =>
      have hc : ¬ c = sep := fun e => h (e ▸ List.mem_cons_self c t)
      have ht : sep ∉ t := fun m => h (List.mem_cons_of_mem _ m)
      simp [splitChar, hc, ih ht]

theorem splitChar_ne_nil (sep : Char) (s : List Char) : splitChar sep s ≠ [] := by
  cases s with
  | nil => simp [splitChar]
  | cons c rest =>
      simp only [splitChar]
      split
      · simp
      · cases h : splitChar sep rest <;> simp

theorem payload_no_comma (s : List Char) (h : ',' ∉ s) : payload s = s := by
  simp [payload, splitChar_not_mem ',' s h]

theorem payload_one_comma (a b : List Char) (ha : ',' ∉ a) (hb : ',' ∉ b) :
    payload (a ++ ',' :: b) = b := by
  simp [payload, splitChar_append ',' a b ha, splitChar_not_mem ',' b hb]

theorem payload_two_commas (a b c : List Char) (ha : ',' ∉ a) (hb : ',' ∉ b) :
    payload (a ++ ',' :: (b ++ ',' :: c)) = b := by
  rw [payload, splitChar_append ',' a _ ha, splitChar_append ',' b c hb]
  have h2 : (a :: b :: splitChar ',' c).length > 1 := by simp
  simp [h2]

/-! ## C7: which substring is decoded -/

/-- Claim C7 (amended): for an input without a comma the whole string is
decoded; when commas are present the decoded substring is the segment between
the first and the second comma (`split(",")[1]`).  For the standard
`data:<mime>;base64,<payload>` URI — exactly one comma — this is the payload
after the comma, as the claim states; with two or more commas it is not the
whole remainder after the first comma. -/
theorem payload_selection :
    (∀ s : List Char, ',' ∉ s → payload s = s) ∧
    (∀ a b : List Char, ',' ∉ a → ',' ∉ b → payload (a ++ ',' :: b) = b) ∧
    (∀ a b c : List Char, ',' ∉ a → ',' ∉ b →
      payload (a ++ ',' :: (b ++ ',' :: c)) = b) :=
  ⟨payload_no_comma, payload_one_comma, payload_two_commas⟩

theorem payload_selection_witness :
    payload "QUJD".data = "QUJD".data ∧
    payload ("data:image/png;base64".data ++ ',' :: "QUJD".data) = "QUJD".data ∧
    payload ("a".data ++ ',' :: ("QUJD".data ++ ',' :: "ZZZZ".data)) =
      "QUJD".data :=
  ⟨payload_selection.1 _ (by decide),
   payload_selection.2.1 _ _ (by decide) (by decide),
   payload_selection.2.2 _ _ _ (by decide) (by decide)⟩

/-- Claim C7 (counterexample to the claim as stated): for the input
`a,QUJD,ZZZZ` the code decodes the middle segment `QUJD` — the save succeeds
— while the full payload after the first comma, `QUJD,ZZZZ`, does not decode
at all.  So "exactly the payload after the first comma is decoded" is false
when the input has more than one comma. -/
theorem payload_after_first_comma_counterexample :
    payload "a,QUJD,ZZZZ".data = "QUJD".data ∧
    "QUJD".data ≠ "QUJD,ZZZZ".data ∧
    base64Decode "QUJD".data = some [65, 66, 67] ∧
    base64Decode "QUJD,ZZZZ".data = none ∧
    (save_temp_image "/t".data ⟨[], [], []⟩ "a,QUJD,ZZZZ".data).isOk = true := by
  decide

/-! ## C6: dedup idempotence of `save_temp_image` -/

theorem lookupFiles_cons_self (l : List (Path × List Nat)) (p : Path)
    (v : List Nat) : lookupFiles ((p, v) :: l) p = some v := by
  simp [lookupFiles]

/-- Claim C6: saving the same bytes twice returns the same virtual path both
times — `_temp/` followed by the lowercase hex SHA-256 of the decoded bytes
with the fixed `png` extension — and the second save is a no-op: it returns
the state unchanged (the existing file is not rewritten or altered). -/
theorem save_temp_image_dedup (tempDir : Path) (fs : FS) (d out : Path)
    (fs₁ : FS) (bytes : List Nat)
    (hdec : base64Decode (payload d) = some bytes)
    (h : save_temp_image tempDir fs d = .ok (out, fs₁)) :
    save_temp_image tempDir fs₁ d = .ok (out, fs₁) ∧
    out = tempPre ++ hexEncode (sha256 bytes) ++ '.' :: "png".data := by
  simp only [save_temp_image, hdec] at h ⊢
  by_cases hex : fs.pathExists (joinPath tempDir (get_hash_filename bytes "png".data))
  · rw [if_pos hex] at h
    obtain ⟨ho, hfs⟩ : tempPre ++ get_hash_filename bytes "png".data = out ∧ fs = fs₁ := by
      cases h; exact ⟨rfl, rfl⟩
    subst hfs
    rw [if_pos hex]
    exact ⟨h, by rw [← ho]; simp [get_hash_filename]⟩
  · rw [if_neg hex] at h
    cases hw : fs.write (joinPath tempDir (get_hash_filename bytes "png".data)) bytes with
    | error e => rw [hw] at h; cases h
    | ok fs' =>
        rw [hw] at h
        obtain ⟨ho, hfs⟩ : tempPre ++ get_hash_filename bytes "png".data = out ∧ fs' = fs₁ := by
          cases h; exact ⟨rfl, rfl⟩
        subst hfs
        have hfiles : fs'.files =
            (joinPath tempDir (get_hash_filename bytes "png".data), bytes) ::
              removeFiles fs.files (joinPath tempDir (get_hash_filename bytes "png".data)) := by
          unfold FS.write at hw
          split at hw
          · cases hw
          · cases hw; rfl
        have hex1 : fs'.pathExists (joinPath tempDir (get_hash_filename bytes "png".data)) = true := by
          simp [FS.pathExists, FS.lookup, hfiles, lookupFiles_cons_self]
        rw [hex1]
        refine ⟨by simp [ho], ?_⟩
        rw [← ho]
        simp [get_hash_filename]

theorem save_temp_image_dedup_witness :
    save_temp_image "/t".data
        ⟨[(("/t/e3b0c44298fc1c149afbf4c8996fb92427ae41e4649b934ca495991b7852b855.png").data, [])], [], []⟩
        [] =
      .ok ("_temp/e3b0c44298fc1c149afbf4c8996fb92427ae41e4649b934ca495991b7852b855.png".data,
        ⟨[(("/t/e3b0c44298fc1c149afbf4c8996fb92427ae41e4649b934ca495991b7852b855.png").data, [])], [], []⟩) ∧
    "_temp/e3b0c44298fc1c149afbf4c8996fb92427ae41e4649b934ca495991b7852b855.png".data =
      tempPre ++ hexEncode (sha256 []) ++ '.' :: "png".data :=
  save_temp_image_dedup "/t".data ⟨[], [], []⟩ [] _ _ [] (by decide) (by decide)

/-! ## C2: per-item failure isolation in `commit_assets` -/

/-- Claim C2 (counterexample to the claim as stated): when both the rename and
the copy of a single temp-prefixed item fail (here injected as a fault on the
temp source path), `commit_assets` aborts the whole batch with an error — no
output list is produced, the failing item's original path is not emitted, and
the remaining item `x` is never processed. -/
theorem commit_assets_batch_abort_counterexample :
    (commit_assets "/t".data ⟨[("/t/a.png".data, [1, 2])], ["/t/a.png".data], []⟩
        "/p".data ["_temp/a.png".data, "x".data]).isOk = false ∧
    commitOutputs (commit_assets "/t".data
        ⟨[("/t/a.png".data, [1, 2])], ["/t/a.png".data], []⟩
        "/p".data ["_temp/a.png".data, "x".data]) = none := by
  decide

/-- Claim C2 (amended): per-item failure isolation holds for the non-temp
items.  A non-temp-prefixed item never aborts the batch; in particular an
absolute, existing item whose import (read/copy/write) fails is emitted as
its original unmodified path with the state untouched; and a batch consisting
of non-temp items always succeeds with exactly one output per input.  A
failed move (rename and copy+delete both failing) of a temp-prefixed item,
however, aborts the whole call with an error. -/
theorem commit_assets_isolation :
    (∀ (td gd : Path) (fs : FS) (p : Path), startsWithL tempPre p = false →
        (commitStep td gd fs p).isOk = true) ∧
    (∀ (td gd : Path) (fs : FS) (p : Path), startsWithL tempPre p = false →
        isAbsolute p = true → fs.pathExists p = true →
        (import_external_file fs p gd).isOk = false →
        commitStep td gd fs p = .ok (p, fs)) ∧
    (∀ (td : Path) (fs : FS) (root : Path) (ps : List Path),
        (∀ p ∈ ps, startsWithL tempPre p = false) →
        (commitOutputs (commit_assets td fs root ps)).map List.length =
          some ps.length) := by
  have step_ok : ∀ (td gd : Path) (fs : FS) (p : Path),
      startsWithL tempPre p = false → (commitStep td gd fs p).isOk = true := by
    intro td gd fs p hp
    simp only [commitStep, hp]
    by_cases hc : (isAbsolute p && fs.pathExists p) = true
    · simp only [hc, Bool.false_eq_true, if_false, if_true]
      cases him : import_external_file fs p gd with
      | error e => rfl
      | ok pair => cases pair; rfl
    · simp only [Bool.false_eq_true, if_false, hc]
      rfl
  refine ⟨step_ok, ?_, ?_⟩
  · intro td gd fs p hp habs hex hfail
    simp only [commitStep, hp, Bool.false_eq_true, if_false, habs, hex,
      Bool.and_self, if_true]
    cases him : import_external_file fs p gd with
    | error e => rfl
    | ok pair =>
        rw [him] at hfail
        exact absurd hfail (by simp [Except.isOk, Except.toBool])
  · intro td fs root ps
    induction ps generalizing fs with
    | nil => intro _; rfl
    | cons p rest ih =>
        intro hall
        have hp := hall p (List.mem_cons_self p rest)
        have hok := step_ok td (joinPath root "assets".data) fs p hp
        cases hstep : commitStep td (joinPath root "assets".data) fs p with
        | error e =>
            rw [hstep] at hok
            exact absurd hok (by simp [Except.isOk, Except.toBool])
        | ok pair =>
            obtain ⟨o, fs'⟩ := pair
            have hrest := ih fs' (fun q hq => hall q (List.mem_cons_of_mem _ hq))
            simp only [commit_assets, commitList, hstep]
            simp only [commit_assets] at hrest
            cases hr : commitList td (joinPath root "assets".data) fs' rest with
            | error e => rw [hr] at hrest; simp [commitOutputs] at hrest
            | ok pair2 =>
                obtain ⟨os, fs''⟩ := pair2
                rw [hr] at hrest
                have hlen : os.length = rest.length := by
                  simpa [commitOutputs] using hrest
                simp [commitOutputs, hlen]

theorem commit_assets_isolation_witness :
    (commitStep "/t".data "/p/assets".data ⟨[], [], []⟩ "x".data).isOk = true ∧
    commitStep "/t".data "/p/assets".data
        ⟨[("/ext/a.png".data, [5])], ["/ext/a.png".data], []⟩ "/ext/a.png".data =
      .ok ("/ext/a.png".data, ⟨[("/ext/a.png".data, [5])], ["/ext/a.png".data], []⟩) ∧
    (commitOutputs (commit_assets "/t".data
        ⟨[("/ext/a.png".data, [5])], ["/ext/a.png".data], []⟩ "/p".data
        ["/ext/a.png".data, "y".data])).map List.length = some 2 :=
  ⟨commit_assets_isolation.1 "/t".data "/p/assets".data ⟨[], [], []⟩ "x".data
      (by decide),
   commit_assets_isolation.2.1 "/t".data "/p/assets".data
      ⟨[("/ext/a.png".data, [5])], ["/ext/a.png".data], []⟩ "/ext/a.png".data
      (by decide) (by decide) (by decide) (by decide),
   commit_assets_isolation.2.2 "/t".data
      ⟨[("/ext/a.png".data, [5])], ["/ext/a.png".data], []⟩ "/p".data
      ["/ext/a.png".data, "y".data] (by decide)⟩

/-! ## C3: decode failures panic the worker -/

/-- Claim C3 (the code bug, evaluated at the failing input): a file whose
dimension probe succeeds (a valid header reporting a 100×50 image) but whose
full decode fails — e.g. a truncated image — makes `process_thumbnail`
(thumb_protocol.rs) panic via `.decode().unwrap()` at line 79 instead of
returning an error value: the model returns `none` (panic), not an error
response.  Probe failures and open failures, by contrast, are surfaced as
`Err` values as the spec describes. -/
theorem process_thumbnail_decode_panic :
    ThumbProto.process_thumbnail truncatedLib "/c".data
        ⟨[("/x/t.png".data, [1, 2, 3])], [], []⟩ "/x/t.png".data 50 = none := by
  decide

/-! ## C1: passthrough instead of upscaling -/

/-- Claim C1 (amended, for the thumb_protocol.rs `process_thumbnail`): for an
existing, readable source file whose dimension probe succeeds with native
width `W`, a request with target width `0` or strictly above `W` returns the
original file bytes unmodified together with the extension-derived MIME type,
leaving the state untouched — no resize or re-encode happens.  (The probe
must succeed: the code probes dimensions before the passthrough check.) -/
theorem process_thumbnail_no_upscale (lib : ImageLib) (thumbDir : Path)
    (fs : FS) (p : Path) (tw W H : Nat) (bytes : List Nat)
    (hfile : fs.lookup p = some bytes) (hnf : p ∉ fs.faults)
    (hdims : lib.dims bytes = some (W, H)) (hw : tw = 0 ∨ W < tw) :
    ThumbProto.process_thumbnail lib thumbDir fs p tw =
      some (.ok (bytes, get_mime_type p), fs) := by
  have hex : fs.pathExists p = true := by simp [FS.pathExists, hfile]
  have hread : fs.read p = .ok bytes := by simp [FS.read, hnf, hfile]
  simp only [ThumbProto.process_thumbnail, hex, Bool.true_eq_false, if_false,
    hread, hdims, if_pos hw]

theorem process_thumbnail_no_upscale_witness :
    ThumbProto.process_thumbnail probeLib "/c".data
        ⟨[("/x/s.png".data, [800, 600, 7])], [], []⟩ "/x/s.png".data 2000 =
      some (.ok ([800, 600, 7], get_mime_type "/x/s.png".data),
        ⟨[("/x/s.png".data, [800, 600, 7])], [], []⟩) :=
  process_thumbnail_no_upscale probeLib "/c".data
    ⟨[("/x/s.png".data, [800, 600, 7])], [], []⟩ "/x/s.png".data 2000 800 600
    [800, 600, 7] (by decide) (by decide) (by decide) (Or.inr (by decide))

/-- Claim C1 (counterexample to the claim as stated): the claim also cites the
lib.rs `process_thumbnail` (lines 217-291), which has no native-width guard:
for a source file (an 800-wide image in the abstraction) and target width
2000 it resizes and JPEG-encodes instead of returning the original bytes —
the body differs from the source bytes and the MIME type is `image/jpeg`, not
the extension-derived type.  Only `w = 0` is a passthrough in that variant. -/
theorem process_thumbnail_upscale_counterexample :
    (LibRs.process_thumbnail upscaleJLib "/c".data
        ⟨[("/x/s.png".data, [800, 600, 7])], [], []⟩ "/x/s.png".data 2000).1 =
      .ok ([9, 2000], "image/jpeg") ∧
    ([9, 2000] : List Nat) ≠ [800, 600, 7] ∧
    "image/jpeg" ≠ get_mime_type "/x/s.png".data := by
  decide

/-! ## C8: the resize height -/

/-- Claim C8 (amended): in the resize branch (`0 < targetWidth ≤ nativeWidth`,
cache miss, decode and pixel-type probe succeed, cache write unfaulted) the
encoder is invoked at width `targetWidth` and height
`nativeHeight * targetWidth / nativeWidth` rounded **down** (`as u32`
truncates the f64 quotient) — not round-to-nearest as the spec's formula
states; the two agree within 1, so the spec's 1000×500 → 400×200 example
still holds. -/
theorem process_thumbnail_resize_height (lib : ImageLib) (thumbDir : Path)
    (fs : FS) (p : Path) (tw W H : Nat) (bytes img : List Nat) (pt : Nat)
    (hfile : fs.lookup p = some bytes) (hnf : p ∉ fs.faults)
    (hdims : lib.dims bytes = some (W, H)) (h0 : 0 < tw) (hle : tw ≤ W)
    (hmiss : fs.pathExists (ThumbProto.cachePathOf thumbDir p tw) = false)
    (hdec : lib.decode bytes = some img) (hpt : lib.pixelType img = some pt)
    (hwok : ThumbProto.cachePathOf thumbDir p tw ∉ fs.faults) :
    ThumbProto.process_thumbnail lib thumbDir fs p tw =
      some (.ok (lib.encode tw (H * tw / W) (lib.resize img tw (H * tw / W)),
          "image/png"),
        { fs with files := (ThumbProto.cachePathOf thumbDir p tw,
            lib.encode tw (H * tw / W) (lib.resize img tw (H * tw / W))) ::
            removeFiles fs.files (ThumbProto.cachePathOf thumbDir p tw) }) := by
  have hex : fs.pathExists p = true := by simp [FS.pathExists, hfile]
  have hread : fs.read p = .ok bytes := by simp [FS.read, hnf, hfile]
  have hnw : ¬ (tw = 0 ∨ W < tw) := by omega
  have hwrite : fs.write (ThumbProto.cachePathOf thumbDir p tw)
      (lib.encode tw (H * tw / W) (lib.resize img tw (H * tw / W))) =
      .ok { fs with files := (ThumbProto.cachePathOf thumbDir p tw,
          lib.encode tw (H * tw / W) (lib.resize img tw (H * tw / W))) ::
          removeFiles fs.files (ThumbProto.cachePathOf thumbDir p tw) } := by
    simp [FS.write, hwok]
  simp only [ThumbProto.process_thumbnail, hex, Bool.true_eq_false, if_false,
    hread, hdims, if_neg hnw, hmiss, Bool.false_eq_true, hdec, hpt, hwrite]

theorem process_thumbnail_resize_height_witness :
    ThumbProto.process_thumbnail probeLib "/c".data
        ⟨[("/x/s.png".data, [1000, 500, 7])], [], []⟩ "/x/s.png".data 400 =
      some (.ok (probeLib.encode 400 (500 * 400 / 1000)
          (probeLib.resize [1000, 500, 7] 400 (500 * 400 / 1000)), "image/png"),
        { files := (ThumbProto.cachePathOf "/c".data "/x/s.png".data 400,
            probeLib.encode 400 (500 * 400 / 1000)
              (probeLib.resize [1000, 500, 7] 400 (500 * 400 / 1000))) ::
            removeFiles [("/x/s.png".data, [1000, 500, 7])]
              (ThumbProto.cachePathOf "/c".data "/x/s.png".data 400),
          faults := [], renameFaults := [] }) :=
  process_thumbnail_resize_height probeLib "/c".data
    ⟨[("/x/s.png".data, [1000, 500, 7])], [], []⟩ "/x/s.png".data 400 1000 500
    [1000, 500, 7] [1000, 500, 7] 0 (by decide) (by decide) (by decide)
    (by decide) (by decide) (by decide) (by decide) (by decide) (by decide)

/-- Claim C8 (counterexample to the claim's general formula): a 2-wide, 3-high
source resized to target width 1 is encoded at height `3 * 1 / 2 = 1`
(truncation), while the claimed `round(H * targetWidth / W)` gives `2`.  The
dimension-tagging `probeLib.encode` exposes the height the encoder received
as the second byte of the body. -/
theorem resize_height_rounding_counterexample :
    (ThumbProto.process_thumbnail probeLib "/c".data
        ⟨[("/x/s.png".data, [2, 3])], [], []⟩ "/x/s.png".data 1).map Prod.fst =
      some (.ok ([1, 1], "image/png")) ∧
    roundHalfUp (3 * 1) 2 = 2 ∧ (1 : Nat) ≠ 2 := by
  decide

/-! ## C9: malformed `w` query parameter -/

theorem splitOnce_append (sep : Char) (k v : List Char) (h : sep ∉ k) :
    splitOnce sep (k ++ sep :: v) = some (k, v) := by
  induction k with
  | nil => simp [splitOnce]
  | cons c t ih =>
      have hc : ¬ c = sep := fun e => h (e ▸ List.mem_cons_self c t)
      have ht : sep ∉ t := fun m => h (List.mem_cons_of_mem _ m)
      simp [splitOnce, hc, ih ht]

/-- With target width `0` the thumb_protocol pipeline never reaches the
decode `unwrap`s: it always returns a value (no panic). -/
theorem thumb_process_zero_total (lib : ImageLib) (td : Path) (fs : FS)
    (p : Path) : (ThumbProto.process_thumbnail lib td fs p 0).isSome = true := by
  simp only [ThumbProto.process_thumbnail]
  by_cases h0 : fs.pathExists p = false
  · simp [h0]
  · rw [if_neg h0]
    cases hr : fs.read p with
    | error e => simp
    | ok bytes =>
        cases hd : lib.dims bytes with
        | none => simp [hd]
        | some wh =>
            obtain ⟨W, H⟩ := wh
            have hw : (0 = 0 ∨ W < 0) := Or.inl rfl
            simp [hd, if_pos hw]

/-- Claim C9: a request whose `w` query value does not parse as a `u32` is
still processed with that handler's default width — `0` for
`protocol_handler` (thumb_protocol.rs), `500` for the closure in `run`
(lib.rs) — and a response is always delivered: `protocol_handler` returns a
response (and in particular cannot panic, since width `0` short-circuits to
passthrough), and `run_handler` returns a `200`, `404` or `500` response. -/
theorem handler_width_fallback (v path : List Char) (hv : parseU32 v = none)
    (hqp : '?' ∉ path) (hqv : '?' ∉ v) (hav : '&' ∉ v) :
    (parse_request 0 (path ++ "?w=".data ++ v) =
      (0, none, urldecode (stripThumbScheme path))) ∧
    (parse_request 500 (path ++ "?w=".data ++ v) =
      (500, none, urldecode (stripThumbScheme path))) ∧
    (∀ (lib : ImageLib) (tempDir thumbDir : Path) (fs : FS),
      (protocol_handler lib tempDir thumbDir fs
        (path ++ "?w=".data ++ v)).isSome = true) ∧
    (∀ (jlib : ImageLibJ) (tempDir thumbDir : Path) (fs : FS),
      (run_handler jlib tempDir thumbDir fs (path ++ "?w=".data ++ v)).1.status = 200 ∨
      (run_handler jlib tempDir thumbDir fs (path ++ "?w=".data ++ v)).1.status = 404 ∨
      (run_handler jlib tempDir thumbDir fs (path ++ "?w=".data ++ v)).1.status = 500) := by
  have hqwv : '?' ∉ ('w' :: '=' :: v) := by
    simp only [List.mem_cons]
    push_neg
    exact ⟨by decide, by decide, hqv⟩
  have hawv : '&' ∉ ('w' :: '=' :: v) := by
    simp only [List.mem_cons]
    push_neg
    exact ⟨by decide, by decide, hav⟩
  have hsplit : splitChar '?' (path ++ '?' :: 'w' :: '=' :: v) =
      [path, 'w' :: '=' :: v] := by
    rw [splitChar_append '?' path _ hqp, splitChar_not_mem '?' _ hqwv]
  have hamp : splitChar '&' ('w' :: '=' :: v) = ['w' :: '=' :: v] :=
    splitChar_not_mem '&' _ hawv
  have hpair : splitOnce '=' ('w' :: '=' :: v) = some (['w'], v) := by
    have h1 : ('w' :: '=' :: v : List Char) = ['w'] ++ '=' :: v := rfl
    rw [h1]
    exact splitOnce_append '=' ['w'] v (by decide)
  have hparse : ∀ d : Nat, parse_request d (path ++ "?w=".data ++ v) =
      (d, none, urldecode (stripThumbScheme path)) := by
    intro d
    simp [parse_request, hsplit, hamp, parseParams, hpair, hv]
  refine ⟨hparse 0, hparse 500, ?_, ?_⟩
  · intro lib tempDir thumbDir fs
    simp only [protocol_handler, hparse 0]
    cases resolve_real_path tempDir fs (urldecode (stripThumbScheme path)) none with
    | none => rfl
    | some real =>
        dsimp only
        obtain ⟨x, hx⟩ := Option.isSome_iff_exists.mp
          (thumb_process_zero_total lib thumbDir fs real)
        rw [hx]
        obtain ⟨r, fs'⟩ := x
        cases r with
        | ok pair => obtain ⟨data, mime⟩ := pair; rfl
        | error e => rfl
  · intro jlib tempDir thumbDir fs
    simp only [run_handler, hparse 500]
    cases resolve_real_path tempDir fs (urldecode (stripThumbScheme path)) none with
    | none => right; left; rfl
    | some real =>
        dsimp only
        cases hpr : LibRs.process_thumbnail jlib thumbDir fs real 500 with
        | mk r fs' =>
            cases r with
            | ok pair => obtain ⟨data, mime⟩ := pair; left; rfl
            | error e => right; right; rfl

theorem handler_width_fallback_witness :
    (parse_request 0 ("thumb://localhost/a.png".data ++ "?w=".data ++ "abc".data) =
      (0, none, urldecode (stripThumbScheme "thumb://localhost/a.png".data))) ∧
    (parse_request 500 ("thumb://localhost/a.png".data ++ "?w=".data ++ "abc".data) =
      (500, none, urldecode (stripThumbScheme "thumb://localhost/a.png".data))) ∧
    (protocol_handler probeLib "/t".data "/c".data ⟨[], [], []⟩
      ("thumb://localhost/a.png".data ++ "?w=".data ++ "abc".data)).isSome = true ∧
    ((run_handler upscaleJLib "/t".data "/c".data ⟨[], [], []⟩
        ("thumb://localhost/a.png".data ++ "?w=".data ++ "abc".data)).1.status = 200 ∨
     (run_handler upscaleJLib "/t".data "/c".data ⟨[], [], []⟩
        ("thumb://localhost/a.png".data ++ "?w=".data ++ "abc".data)).1.status = 404 ∨
     (run_handler upscaleJLib "/t".data "/c".data ⟨[], [], []⟩
        ("thumb://localhost/a.png".data ++ "?w=".data ++ "abc".data)).1.status = 500) :=
  ⟨(handler_width_fallback "abc".data _ (by decide) (by decide) (by decide) (by decide)).1,
   (handler_width_fallback "abc".data _ (by decide) (by decide) (by decide) (by decide)).2.1,
   (handler_width_fallback "abc".data _ (by decide) (by decide) (by decide) (by decide)).2.2.1
     probeLib "/t".data "/c".data ⟨[], [], []⟩,
   (handler_width_fallback "abc".data _ (by decide) (by decide) (by decide) (by decide)).2.2.2
     upscaleJLib "/t".data "/c".data ⟨[], [], []⟩⟩

/-! ## Filesystem-operation effect lemmas (towards C5) -/

theorem lookupFiles_removeFiles (l : List (Path × List Nat)) (p q : Path) :
    lookupFiles (removeFiles l p) q = if q = p then none else lookupFiles l q := by
  induction l with
  | nil => simp [removeFiles, lookupFiles]
  | cons e rest ih =>
      obtain ⟨k, v⟩ := e
      by_cases hk : k = p <;> by_cases hkq : k = q <;>
        simp_all [removeFiles, lookupFiles]

theorem write_ok_inv (fs : FS) (p : Path) (v : List Nat) (fs' : FS)
    (h : fs.write p v = .ok fs') :
    p ∉ fs.faults ∧ fs'.faults = fs.faults ∧
    fs'.renameFaults = fs.renameFaults ∧
    ∀ q, fs'.lookup q = if q = p then some v else fs.lookup q := by
  unfold FS.write at h
  by_cases hf : p ∈ fs.faults
  · rw [if_pos hf] at h; cases h
  · rw [if_neg hf] at h
    cases h
    refine ⟨hf, rfl, rfl, ?_⟩
    intro q
    show lookupFiles ((p, v) :: removeFiles fs.files p) q = _
    rw [lookupFiles, lookupFiles_removeFiles]
    by_cases hq : q = p
    · rw [if_pos hq.symm, if_pos hq]
    · rw [if_neg (fun e : p = q => hq e.symm), if_neg hq, if_neg hq]
      rfl

theorem rename_ok_inv (fs : FS) (src dst : Path) (fs' : FS)
    (h : fs.rename src dst = .ok fs') :
    src ∉ fs.faults ∧ dst ∉ fs.faults ∧ fs'.faults = fs.faults ∧
    fs'.renameFaults = fs.renameFaults ∧
    ∃ v, fs.lookup src = some v ∧
      ∀ q, fs'.lookup q =
        if q = dst then some v else if q = src then none else fs.lookup q := by
  unfold FS.rename at h
  by_cases hf : src ∈ fs.faults ∨ dst ∈ fs.faults ∨ src ∈ fs.renameFaults ∨
      dst ∈ fs.renameFaults
  · rw [if_pos hf] at h; cases h
  · rw [if_neg hf] at h
    push_neg at hf
    obtain ⟨h1, h2, _, _⟩ := hf
    cases hs : fs.lookup src with
    | none => rw [hs] at h; cases h
    | some v =>
        rw [hs] at h
        cases h
        refine ⟨h1, h2, rfl, rfl, v, rfl, ?_⟩
        intro q
        show lookupFiles ((dst, v) :: removeFiles (removeFiles fs.files src) dst) q = _
        rw [lookupFiles, lookupFiles_removeFiles, lookupFiles_removeFiles]
        by_cases hq : q = dst
        · rw [if_pos hq.symm, if_pos hq]
        · rw [if_neg (fun e : dst = q => hq e.symm), if_neg hq, if_neg hq]
          rfl

theorem copy_ok_inv (fs : FS) (src dst : Path) (fs' : FS)
    (h : fs.copy src dst = .ok fs') :
    src ∉ fs.faults ∧ dst ∉ fs.faults ∧ fs'.faults = fs.faults ∧
    fs'.renameFaults = fs.renameFaults ∧
    ∃ v, fs.lookup src = some v ∧
      ∀ q, fs'.lookup q = if q = dst then some v else fs.lookup q := by
  unfold FS.copy at h
  by_cases hf : src ∈ fs.faults ∨ dst ∈ fs.faults
  · rw [if_pos hf] at h; cases h
  · rw [if_neg hf] at h
    push_neg at hf
    obtain ⟨h1, h2⟩ := hf
    cases hs : fs.lookup src with
    | none => rw [hs] at h; cases h
    | some v =>
        rw [hs] at h
        cases h
        refine ⟨h1, h2, rfl, rfl, v, rfl, ?_⟩
        intro q
        show lookupFiles ((dst, v) :: removeFiles fs.files dst) q = _
        rw [lookupFiles, lookupFiles_removeFiles]
        by_cases hq : q = dst
        · rw [if_pos hq.symm, if_pos hq]
        · rw [if_neg (fun e : dst = q => hq e.symm), if_neg hq, if_neg hq]
          rfl

theorem removeFile_ok_inv (fs : FS) (p : Path) (fs' : FS)
    (h : fs.removeFile p = .ok fs') :
    p ∉ fs.faults ∧ (fs.lookup p).isSome = true ∧ fs'.faults = fs.faults ∧
    fs'.renameFaults = fs.renameFaults ∧
    ∀ q, fs'.lookup q = if q = p then none else fs.lookup q := by
  unfold FS.removeFile at h
  by_cases hf : p ∈ fs.faults
  · rw [if_pos hf] at h; cases h
  · rw [if_neg hf] at h
    by_cases he : (fs.lookup p).isSome = true
    · rw [if_pos he] at h
      cases h
      exact ⟨hf, he, rfl, rfl, fun q => lookupFiles_removeFiles fs.files p q⟩
    · rw [if_neg he] at h; cases h

/-! ## Evolution of the filesystem across commit items -/

theorem Evol.refl (td gd : Path) (fs : FS) : Evol td gd fs fs :=
  ⟨rfl, rfl, fun _ _ h => Or.inl h, fun _ _ h => Or.inl h⟩

theorem Evol.trans {td gd : Path} {fs fs' fs'' : FS}
    (hdisj : ∀ r, ¬(underDir td r = true ∧ underDir gd r = true))
    (h1 : Evol td gd fs fs') (h2 : Evol td gd fs' fs'') :
    Evol td gd fs fs'' := by
  refine ⟨h2.faults_eq.trans h1.faults_eq, h2.rn_eq.trans h1.rn_eq, ?_, ?_⟩
  · intro p v hv
    rcases h1.keep p v hv with hk | ⟨htd, hnf, hnone⟩
    · rcases h2.keep p v hk with hk2 | ⟨htd2, hnf2, hnone2⟩
      · exact Or.inl hk2
      · exact Or.inr ⟨htd2, by rwa [h1.faults_eq] at hnf2, hnone2⟩
    · refine Or.inr ⟨htd, hnf, ?_⟩
      cases h3 : fs''.lookup p with
      | none => rfl
      | some w =>
          rcases h2.new p w h3 with hn | ⟨hgd, _, _⟩
          · rw [hn] at hnone; cases hnone
          · exact absurd ⟨htd, hgd⟩ (hdisj p)
  · intro p v hv
    rcases h2.new p v hv with hn | ⟨hgd, hnf, hnone⟩
    · rcases h1.new p v hn with hm | ⟨hgd1, hnf1, hnone1⟩
      · exact Or.inl hm
      · exact Or.inr ⟨hgd1, hnf1, hnone1⟩
    · refine Or.inr ⟨hgd, by rwa [h1.faults_eq] at hnf, ?_⟩
      cases h3 : fs.lookup p with
      | none => rfl
      | some w =>
          rcases h1.keep p w h3 with hk | ⟨htd1, _, _⟩
          · rw [hk] at hnone; cases hnone
          · exact absurd ⟨htd1, hgd⟩ (hdisj p)

theorem pathExists_false_lookup (fs : FS) (p : Path)
    (h : fs.pathExists p = false) : fs.lookup p = none := by
  unfold FS.pathExists at h
  cases hl : fs.lookup p with
  | none => rfl
  | some v => rw [hl] at h; cases h

theorem pathExists_true_lookup (fs : FS) (p : Path)
    (h : fs.pathExists p = true) : ∃ v, fs.lookup p = some v := by
  unfold FS.pathExists at h
  cases hl : fs.lookup p with
  | none => rw [hl] at h; cases h
  | some v => exact ⟨v, rfl⟩

theorem lookup_pathExists (fs : FS) (p : Path) (v : List Nat)
    (h : fs.lookup p = some v) : fs.pathExists p = true := by
  simp [FS.pathExists, h]

theorem removeFile_error_inv (fs : FS) (p : Path) (e : String)
    (h : fs.removeFile p = .error e) : p ∈ fs.faults ∨ fs.lookup p = none := by
  unfold FS.removeFile at h
  by_cases hf : p ∈ fs.faults
  · exact Or.inl hf
  · rw [if_neg hf] at h
    by_cases he : (fs.lookup p).isSome = true
    · rw [if_pos he] at h; cases h
    · right
      cases hl : fs.lookup p with
      | none => rfl
      | some v => rw [hl] at he; simp at he

/-- Complete inversion of one successful `commit_assets` item, provided the
temp and asset directories cannot produce equal joined paths.  Every
successful step falls into one of the scenarios below, each recording the
branch facts, the produced output, and a lookup-level characterization of the
resulting state. -/
theorem commitStep_inv (td gd : Path) (fs : FS) (p o : Path) (fs' : FS)
    (Hdisj : ∀ r : Path, ¬(underDir td r = true ∧ underDir gd r = true))
    (hrel : startsWithL tempPre p = true → isAbsolute (p.drop 6) = false)
    (h : commitStep td gd fs p = .ok (o, fs')) :
    (startsWithL tempPre p = true ∧ o = "assets/".data ++ p.drop 6 ∧
      fs'.faults = fs.faults ∧ fs'.renameFaults = fs.renameFaults ∧
      ((fs.lookup (joinPath td (p.drop 6)) = none ∧ fs' = fs) ∨
       ((fs.lookup (joinPath td (p.drop 6))).isSome = true ∧
        (fs.lookup (joinPath gd (p.drop 6))).isSome = true ∧
        joinPath td (p.drop 6) ∈ fs.faults ∧ fs' = fs) ∨
       ((fs.lookup (joinPath td (p.drop 6))).isSome = true ∧
        (fs.lookup (joinPath gd (p.drop 6))).isSome = true ∧
        joinPath td (p.drop 6) ∉ fs.faults ∧
        (∀ q, fs'.lookup q =
          if q = joinPath td (p.drop 6) then none else fs.lookup q)) ∨
       (∃ v, fs.lookup (joinPath td (p.drop 6)) = some v ∧
        fs.lookup (joinPath gd (p.drop 6)) = none ∧
        joinPath td (p.drop 6) ∉ fs.faults ∧
        joinPath gd (p.drop 6) ∉ fs.faults ∧
        (∀ q, fs'.lookup q =
          if q = joinPath gd (p.drop 6) then some v
          else if q = joinPath td (p.drop 6) then none else fs.lookup q)))) ∨
    (startsWithL tempPre p = false ∧ isAbsolute p = true ∧
      (fs.lookup p).isSome = true ∧
      fs'.faults = fs.faults ∧ fs'.renameFaults = fs.renameFaults ∧
      ((∃ v, fs.lookup p = some v ∧ p ∉ fs.faults ∧
        o = "assets/".data ++ get_hash_filename v ((extension p).getD "bin".data) ∧
        (((fs.lookup (joinPath gd
            (get_hash_filename v ((extension p).getD "bin".data)))).isSome = true ∧
          fs' = fs) ∨
         (fs.lookup (joinPath gd
            (get_hash_filename v ((extension p).getD "bin".data))) = none ∧
          joinPath gd (get_hash_filename v ((extension p).getD "bin".data)) ∉
            fs.faults ∧
          (∀ q, fs'.lookup q =
            if q = joinPath gd (get_hash_filename v ((extension p).getD "bin".data))
            then some v else fs.lookup q)))) ∨
       (o = p ∧ fs' = fs ∧
        (p ∈ fs.faults ∨
         (∃ v, fs.lookup p = some v ∧ p ∉ fs.faults ∧
          fs.lookup (joinPath gd
            (get_hash_filename v ((extension p).getD "bin".data))) = none ∧
          joinPath gd (get_hash_filename v ((extension p).getD "bin".data)) ∈
            fs.faults))))) ∨
    (startsWithL tempPre p = false ∧ (isAbsolute p && fs.pathExists p) = false ∧
      o = p ∧ fs' = fs) := by
  by_cases hT : startsWithL tempPre p = true
  · simp only [commitStep, hT, if_true] at h
    cases hS : fs.pathExists (joinPath td (p.drop 6)) with
    | false =>
        rw [hS] at h
        simp only [Bool.false_eq_true, if_false] at h
        cases h
        exact Or.inl ⟨hT, rfl, rfl, rfl,
          Or.inl ⟨pathExists_false_lookup _ _ hS, rfl⟩⟩
    | true =>
        rw [hS] at h
        simp only [if_true] at h
        obtain ⟨v, hv⟩ := pathExists_true_lookup _ _ hS
        cases hD : fs.pathExists (joinPath gd (p.drop 6)) with
        | true =>
            rw [hD] at h
            simp only [if_true] at h
            cases hr : fs.removeFile (joinPath td (p.drop 6)) with
            | ok fs₂ =>
                rw [hr] at h
                cases h
                obtain ⟨hnf, hsome, hfe, hre, hchar⟩ := removeFile_ok_inv _ _ _ hr
                refine Or.inl ⟨hT, rfl, hfe, hre, Or.inr (Or.inr (Or.inl
                  ⟨hsome, ?_, hnf, hchar⟩))⟩
                obtain ⟨w, hw⟩ := pathExists_true_lookup _ _ hD
                simp [hw]
            | error e =>
                rw [hr] at h
                cases h
                rcases removeFile_error_inv _ _ _ hr with hf | hnone
                · refine Or.inl ⟨hT, rfl, rfl, rfl, Or.inr (Or.inl
                    ⟨by simp [hv], ?_, hf, rfl⟩)⟩
                  obtain ⟨w, hw⟩ := pathExists_true_lookup _ _ hD
                  simp [hw]
                · rw [hv] at hnone; cases hnone
        | false =>
            rw [hD] at h
            simp only [Bool.false_eq_true, if_false] at h
            cases hr : fs.rename (joinPath td (p.drop 6)) (joinPath gd (p.drop 6)) with
            | ok fs₂ =>
                rw [hr] at h
                cases h
                obtain ⟨h1, h2, hfe, hre, w, hw, hchar⟩ := rename_ok_inv _ _ _ _ hr
                exact Or.inl ⟨hT, rfl, hfe, hre, Or.inr (Or.inr (Or.inr
                  ⟨w, hw, pathExists_false_lookup _ _ hD, h1, h2, hchar⟩))⟩
            | error e =>
                rw [hr] at h
                dsimp only at h
                cases hc : fs.copy (joinPath td (p.drop 6)) (joinPath gd (p.drop 6)) with
                | error e2 => rw [hc] at h; cases h
                | ok fs₁ =>
                    rw [hc] at h
                    dsimp only at h
                    obtain ⟨h1, h2, hfe1, hre1, w, hw, hchar1⟩ := copy_ok_inv _ _ _ _ hc
                    cases hrm : fs₁.removeFile (joinPath td (p.drop 6)) with
                    | error e3 => rw [hrm] at h; cases h
                    | ok fs₂ =>
                        rw [hrm] at h
                        dsimp only at h
                        cases h
                        obtain ⟨hnf2, hsome2, hfe2, hre2, hchar2⟩ :=
                          removeFile_ok_inv _ _ _ hrm
                        refine Or.inl ⟨hT, rfl, hfe2.trans hfe1, hre2.trans hre1,
                          Or.inr (Or.inr (Or.inr ⟨w, hw,
                            pathExists_false_lookup _ _ hD, h1, h2, ?_⟩))⟩
                        intro q
                        rw [hchar2 q, hchar1 q]
                        have hsd : joinPath td (p.drop 6) ≠ joinPath gd (p.drop 6) :=
                          joinPath_td_gd_ne td gd (p.drop 6) Hdisj (hrel hT)
                        by_cases hq2 : q = joinPath td (p.drop 6)
                        · rw [if_pos hq2, if_neg (by rw [hq2]; exact hsd), if_pos hq2]
                        · rw [if_neg hq2]
                          by_cases hq1 : q = joinPath gd (p.drop 6)
                          · rw [if_pos hq1, if_pos hq1]
                          · rw [if_neg hq1, if_neg hq1, if_neg hq2]
  · have hT' : startsWithL tempPre p = false := by
      cases hb : startsWithL tempPre p
      · rfl
      · exact absurd hb hT
    simp only [commitStep, hT', Bool.false_eq_true, if_false] at h
    cases hA : (isAbsolute p && fs.pathExists p) with
    | false =>
        rw [hA] at h
        simp only [Bool.false_eq_true, if_false] at h
        cases h
        exact Or.inr (Or.inr ⟨hT', rfl, rfl, rfl⟩)
    | true =>
        rw [hA] at h
        simp only [if_true] at h
        have hA' := hA
        simp only [Bool.and_eq_true] at hA'
        obtain ⟨habs, hexi⟩ := hA'
        obtain ⟨v, hv⟩ := pathExists_true_lookup _ _ hexi
        by_cases hf : p ∈ fs.faults
        · have himp : import_external_file fs p gd = .error ("Read error: " ++ "read fault") := by
            simp [import_external_file, FS.read, hf]
          rw [himp] at h
          cases h
          exact Or.inr (Or.inl ⟨hT', habs, by simp [hv], rfl, rfl,
            Or.inr ⟨rfl, rfl, Or.inl hf⟩⟩)
        · have hread : fs.read p = .ok v := by simp [FS.read, hf, hv]
          cases hDh : fs.pathExists (joinPath gd
              (get_hash_filename v ((extension p).getD "bin".data))) with
          | true =>
              have himp : import_external_file fs p gd =
                  .ok ("assets/".data ++
                    get_hash_filename v ((extension p).getD "bin".data), fs) := by
                simp [import_external_file, hread, hDh]
              rw [himp] at h
              cases h
              exact Or.inr (Or.inl ⟨hT', habs, by simp [hv], rfl, rfl,
                Or.inl ⟨v, hv, hf, rfl, Or.inl ⟨by
                  obtain ⟨w, hw⟩ := pathExists_true_lookup _ _ hDh
                  simp [hw], rfl⟩⟩⟩)
          | false =>
              by_cases hfw : joinPath gd
                  (get_hash_filename v ((extension p).getD "bin".data)) ∈ fs.faults
              · have himp : import_external_file fs p gd =
                    .error ("Write error: " ++ "write fault") := by
                  simp [import_external_file, hread, hDh, FS.write, hfw]
                rw [himp] at h
                cases h
                exact Or.inr (Or.inl ⟨hT', habs, by simp [hv], rfl, rfl,
                  Or.inr ⟨rfl, rfl, Or.inr ⟨v, hv, hf,
                    pathExists_false_lookup _ _ hDh, hfw⟩⟩⟩)
              · cases hwr : fs.write (joinPath gd
                    (get_hash_filename v ((extension p).getD "bin".data))) v with
                | error e4 =>
                    unfold FS.write at hwr
                    rw [if_neg hfw] at hwr
                    cases hwr
                | ok fs₂ =>
                    have himp : import_external_file fs p gd =
                        .ok ("assets/".data ++
                          get_hash_filename v ((extension p).getD "bin".data), fs₂) := by
                      simp [import_external_file, hread, hDh, hwr]
                    rw [himp] at h
                    cases h
                    obtain ⟨hnf, hfe, hre, hchar⟩ := write_ok_inv _ _ _ _ hwr
                    exact Or.inr (Or.inl ⟨hT', habs, by simp [hv], hfe, hre,
                      Or.inl ⟨v, hv, hf, rfl,
                        Or.inr ⟨pathExists_false_lookup _ _ hDh, hfw, hchar⟩⟩⟩)

/-- A successful commit item only removes non-faulted temp-directory files
and only creates non-faulted asset-directory files. -/
theorem commitStep_evol (td gd : Path) (fs : FS) (p o : Path) (fs' : FS)
    (Hdisj : ∀ r : Path, ¬(underDir td r = true ∧ underDir gd r = true))
    (hrel : startsWithL tempPre p = true → isAbsolute (p.drop 6) = false)
    (h : commitStep td gd fs p = .ok (o, fs')) : Evol td gd fs fs' := by
  rcases commitStep_inv td gd fs p o fs' Hdisj hrel h with
    ⟨hT, _, hfe, hre, hsc⟩ | ⟨_, _, _, hfe, hre, hsc⟩ | ⟨_, _, _, hfs⟩
  · rcases hsc with ⟨_, rfl⟩ | ⟨_, _, _, rfl⟩ | ⟨hsome, _, hnf, hchar⟩ |
      ⟨v, hv, hgnone, hnf, hgnf, hchar⟩
    · exact Evol.refl td gd _
    · exact Evol.refl td gd _
    · refine ⟨hfe, hre, ?_, ?_⟩
      · intro q w hq
        by_cases hqs : q = joinPath td (p.drop 6)
        · refine Or.inr ⟨by rw [hqs]; exact underDir_joinPath td _ (hrel hT),
            by rwa [← hqs] at hnf, ?_⟩
          rw [hchar q, if_pos hqs]
        · exact Or.inl (by rw [hchar q, if_neg hqs]; exact hq)
      · intro q w hq
        rw [hchar q] at hq
        by_cases hqs : q = joinPath td (p.drop 6)
        · rw [if_pos hqs] at hq; cases hq
        · rw [if_neg hqs] at hq; exact Or.inl hq
    · refine ⟨hfe, hre, ?_, ?_⟩
      · intro q w hq
        by_cases hqd : q = joinPath gd (p.drop 6)
        · rw [hqd, hgnone] at hq; cases hq
        · by_cases hqs : q = joinPath td (p.drop 6)
          · refine Or.inr ⟨by rw [hqs]; exact underDir_joinPath td _ (hrel hT),
              by rwa [← hqs] at hnf, ?_⟩
            rw [hchar q, if_neg hqd, if_pos hqs]
          · exact Or.inl (by rw [hchar q, if_neg hqd, if_neg hqs]; exact hq)
      · intro q w hq
        rw [hchar q] at hq
        by_cases hqd : q = joinPath gd (p.drop 6)
        · rw [if_pos hqd] at hq
          cases hq
          exact Or.inr ⟨by rw [hqd]; exact underDir_joinPath gd _ (hrel hT),
            by rwa [← hqd] at hgnf, by rwa [hqd]⟩
        · rw [if_neg hqd] at hq
          by_cases hqs : q = joinPath td (p.drop 6)
          · rw [if_pos hqs] at hq; cases hq
          · rw [if_neg hqs] at hq; exact Or.inl hq
  · rcases hsc with ⟨v, hv, hnf, _, ⟨_, rfl⟩ | ⟨hgnone, hgnf, hchar⟩⟩ | ⟨_, rfl, _⟩
    · exact Evol.refl td gd _
    · refine ⟨hfe, hre, ?_, ?_⟩
      · intro q w hq
        by_cases hqd : q = joinPath gd (get_hash_filename v ((extension p).getD "bin".data))
        · rw [hqd, hgnone] at hq; cases hq
        · exact Or.inl (by rw [hchar q, if_neg hqd]; exact hq)
      · intro q w hq
        rw [hchar q] at hq
        by_cases hqd : q = joinPath gd (get_hash_filename v ((extension p).getD "bin".data))
        · rw [if_pos hqd] at hq
          cases hq
          refine Or.inr ⟨?_, by rwa [← hqd] at hgnf, by rwa [hqd]⟩
          rw [hqd]
          exact underDir_joinPath gd _ (get_hash_filename_not_abs _ _)
        · rw [if_neg hqd] at hq; exact Or.inl hq
    · exact Evol.refl td gd _
  · rw [hfs]
    exact Evol.refl td gd fs

/-- A successful commit run evolves the filesystem as its items do. -/
theorem commitList_evol (td gd : Path) (l : List Path)
    (Hdisj : ∀ r : Path, ¬(underDir td r = true ∧ underDir gd r = true)) :
    ∀ (fs : FS) (os : List Path) (fs' : FS),
      (∀ p ∈ l, startsWithL tempPre p = true → isAbsolute (p.drop 6) = false) →
      commitList td gd fs l = .ok (os, fs') → Evol td gd fs fs' := by
  induction l with
  | nil =>
      intro fs os fs' _ h
      unfold commitList at h
      cases h
      exact Evol.refl td gd _
  | cons p rest ih =>
      intro fs os fs' Hrel h
      unfold commitList at h
      cases hstep : commitStep td gd fs p with
      | error e => rw [hstep] at h; cases h
      | ok pair =>
          obtain ⟨o, fs₁⟩ := pair
          rw [hstep] at h
          dsimp only at h
          cases hrest : commitList td gd fs₁ rest with
          | error e => rw [hrest] at h; cases h
          | ok pair2 =>
              obtain ⟨os₂, fs₂⟩ := pair2
              rw [hrest] at h
              dsimp only at h
              cases h
              exact Evol.trans Hdisj
                (commitStep_evol td gd fs p o fs₁ Hdisj
                  (Hrel p (List.mem_cons_self p rest)) hstep)
                (ih fs₁ os₂ fs'
                  (fun q hq => Hrel q (List.mem_cons_of_mem _ hq)) hrest)

/-! ## Forward evaluation of the settled step shapes -/

theorem commitStep_temp_src_absent (td gd : Path) (fs : FS) (p : Path)
    (hT : startsWithL tempPre p = true)
    (hsrc : fs.lookup (joinPath td (p.drop 6)) = none) :
    commitStep td gd fs p = .ok ("assets/".data ++ p.drop 6, fs) := by
  have hS : fs.pathExists (joinPath td (p.drop 6)) = false := by
    simp [FS.pathExists, hsrc]
  simp [commitStep, hT, hS]

theorem commitStep_temp_remove_fault (td gd : Path) (fs : FS) (p : Path)
    (hT : startsWithL tempPre p = true)
    (hsrc : (fs.lookup (joinPath td (p.drop 6))).isSome = true)
    (hdst : (fs.lookup (joinPath gd (p.drop 6))).isSome = true)
    (hf : joinPath td (p.drop 6) ∈ fs.faults) :
    commitStep td gd fs p = .ok ("assets/".data ++ p.drop 6, fs) := by
  have hS : fs.pathExists (joinPath td (p.drop 6)) = true := hsrc
  have hD : fs.pathExists (joinPath gd (p.drop 6)) = true := hdst
  have hrm : fs.removeFile (joinPath td (p.drop 6)) = .error "remove fault" := by
    simp [FS.removeFile, hf]
  simp [commitStep, hT, hS, hD, hrm]

theorem commitStep_abs_import_hit (td gd : Path) (fs : FS) (p : Path)
    (v : List Nat) (hT : startsWithL tempPre p = false)
    (habs : isAbsolute p = true) (hv : fs.lookup p = some v)
    (hnf : p ∉ fs.faults)
    (hdst : (fs.lookup (joinPath gd
      (get_hash_filename v ((extension p).getD "bin".data)))).isSome = true) :
    commitStep td gd fs p =
      .ok ("assets/".data ++ get_hash_filename v ((extension p).getD "bin".data),
        fs) := by
  have hexi : fs.pathExists p = true := lookup_pathExists _ _ _ hv
  have hread : fs.read p = .ok v := by simp [FS.read, hnf, hv]
  have hD : fs.pathExists (joinPath gd
      (get_hash_filename v ((extension p).getD "bin".data))) = true := hdst
  have himp : import_external_file fs p gd =
      .ok ("assets/".data ++ get_hash_filename v ((extension p).getD "bin".data),
        fs) := by
    simp [import_external_file, hread, hD]
  simp [commitStep, hT, habs, hexi, himp]

theorem commitStep_abs_read_fault (td gd : Path) (fs : FS) (p : Path)
    (hT : startsWithL tempPre p = false) (habs : isAbsolute p = true)
    (hsome : (fs.lookup p).isSome = true) (hf : p ∈ fs.faults) :
    commitStep td gd fs p = .ok (p, fs) := by
  have hexi : fs.pathExists p = true := hsome
  have himp : import_external_file fs p gd =
      .error ("Read error: " ++ "read fault") := by
    simp [import_external_file, FS.read, hf]
  simp [commitStep, hT, habs, hexi, himp]

theorem commitStep_abs_write_fault (td gd : Path) (fs : FS) (p : Path)
    (v : List Nat) (hT : startsWithL tempPre p = false)
    (habs : isAbsolute p = true) (hv : fs.lookup p = some v)
    (hnf : p ∉ fs.faults)
    (hdnone : fs.lookup (joinPath gd
      (get_hash_filename v ((extension p).getD "bin".data))) = none)
    (hdf : joinPath gd (get_hash_filename v ((extension p).getD "bin".data)) ∈
      fs.faults) :
    commitStep td gd fs p = .ok (p, fs) := by
  have hexi : fs.pathExists p = true := lookup_pathExists _ _ _ hv
  have hread : fs.read p = .ok v := by simp [FS.read, hnf, hv]
  have hD : fs.pathExists (joinPath gd
      (get_hash_filename v ((extension p).getD "bin".data))) = false := by
    simp [FS.pathExists, hdnone]
  have himp : import_external_file fs p gd =
      .error ("Write error: " ++ "write fault") := by
    simp [import_external_file, hread, hD, FS.write, hdf]
  simp [commitStep, hT, habs, hexi, himp]

theorem commitStep_passthrough (td gd : Path) (fs : FS) (p : Path)
    (hT : startsWithL tempPre p = false)
    (hA : (isAbsolute p && fs.pathExists p) = false) :
    commitStep td gd fs p = .ok (p, fs) := by
  simp [commitStep, hT, hA]

/-- After a successful step, the item is settled in the resulting state:
re-running it returns the same output and changes nothing. -/
theorem commitStep_settles (td gd : Path) (fs : FS) (p o : Path) (fs' : FS)
    (Hdisj : ∀ r : Path, ¬(underDir td r = true ∧ underDir gd r = true))
    (hrel : startsWithL tempPre p = true → isAbsolute (p.drop 6) = false)
    (Hpgd : underDir gd p = false)
    (h : commitStep td gd fs p = .ok (o, fs')) : Settled td gd fs' p o := by
  unfold Settled
  rcases commitStep_inv td gd fs p o fs' Hdisj hrel h with
    ⟨hT, ho, hfe, hre, hsc⟩ | ⟨hT, habs, hsome, hfe, hre, hsc⟩ | ⟨hT, hA, ho, hfs⟩
  · rcases hsc with ⟨hsrc, rfl⟩ | ⟨hsrc, hdst, hf, rfl⟩ | ⟨hsrc, hdst, hnf, hchar⟩ |
      ⟨v, hv, hgnone, hnf, hgnf, hchar⟩
    · rw [ho]; exact commitStep_temp_src_absent td gd _ p hT hsrc
    · rw [ho]; exact commitStep_temp_remove_fault td gd _ p hT hsrc hdst hf
    · rw [ho]
      refine commitStep_temp_src_absent td gd fs' p hT ?_
      rw [hchar _, if_pos rfl]
    · rw [ho]
      refine commitStep_temp_src_absent td gd fs' p hT ?_
      rw [hchar _, if_neg (joinPath_td_gd_ne td gd (p.drop 6) Hdisj (hrel hT)),
        if_pos rfl]
  · rcases hsc with ⟨v, hv, hnf, ho, ⟨hdst, rfl⟩ | ⟨hgnone, hgnf, hchar⟩⟩ |
      ⟨ho, rfl, ⟨hf⟩ | ⟨v, hv, hnf, hgnone, hgf⟩⟩
    · rw [ho]; exact commitStep_abs_import_hit td gd _ p v hT habs hv hnf hdst
    · rw [ho]
      have hpd : p ≠ joinPath gd (get_hash_filename v ((extension p).getD "bin".data)) :=
        not_underDir_ne gd p _ Hpgd (get_hash_filename_not_abs _ _)
      have hv' : fs'.lookup p = some v := by rw [hchar p, if_neg hpd]; exact hv
      have hnf' : p ∉ fs'.faults := by rw [hfe]; exact hnf
      have hdst' : (fs'.lookup (joinPath gd
          (get_hash_filename v ((extension p).getD "bin".data)))).isSome = true := by
        rw [hchar _, if_pos rfl]; rfl
      exact commitStep_abs_import_hit td gd fs' p v hT habs hv' hnf' hdst'
    · rw [ho]; exact commitStep_abs_read_fault td gd _ p hT habs hsome hf
    · rw [ho]; exact commitStep_abs_write_fault td gd _ p v hT habs hv hnf hgnone hgf
  · rw [ho, hfs]
    exact commitStep_passthrough td gd fs p hT hA

/-- A settled item stays settled across any later filesystem evolution of the
run, provided the item's own string does not point into the temp or the
asset directory. -/
theorem settled_preserved (td gd : Path) (fs fs' : FS) (p o : Path)
    (hdisj : ∀ r : Path, ¬(underDir td r = true ∧ underDir gd r = true))
    (hrel : startsWithL tempPre p = true → isAbsolute (p.drop 6) = false)
    (Hptd : underDir td p = false) (Hpgd : underDir gd p = false)
    (hs : Settled td gd fs p o) (he : Evol td gd fs fs') :
    Settled td gd fs' p o := by
  unfold Settled at hs ⊢
  rcases commitStep_inv td gd fs p o fs hdisj hrel hs with
    ⟨hT, ho, _, _, hsc⟩ | ⟨hT, habs, hsome, _, _, hsc⟩ | ⟨hT, hA, ho, _⟩
  · rcases hsc with ⟨hsrc, _⟩ | ⟨hsrc, hdst, hf, _⟩ | ⟨hsrc, _, _, hchar⟩ |
      ⟨v, hv, hgnone, _, _, hchar⟩
    · -- source absent: it stays absent (creations are asset-directory only)
      rw [ho]
      refine commitStep_temp_src_absent td gd fs' p hT ?_
      cases hl : fs'.lookup (joinPath td (p.drop 6)) with
      | none => rfl
      | some w =>
          rcases he.new _ w hl with hk | ⟨hgd, _, _⟩
          · rw [hk] at hsrc; cases hsrc
          · exact absurd ⟨underDir_joinPath td _ (hrel hT), hgd⟩ (hdisj _)
    · -- faulted source with existing destination: both survive, fault persists
      rw [ho]
      obtain ⟨w, hw⟩ := Option.isSome_iff_exists.mp hsrc
      obtain ⟨u, hu⟩ := Option.isSome_iff_exists.mp hdst
      have hw' : fs'.lookup (joinPath td (p.drop 6)) = some w := by
        rcases he.keep _ w hw with hk | ⟨_, hnf, _⟩
        · exact hk
        · exact absurd hf hnf
      have hu' : fs'.lookup (joinPath gd (p.drop 6)) = some u := by
        rcases he.keep _ u hu with hk | ⟨htd, _, _⟩
        · exact hk
        · exact absurd ⟨htd, underDir_joinPath gd _ (hrel hT)⟩ (hdisj _)
      refine commitStep_temp_remove_fault td gd fs' p hT (by simp [hw'])
        (by simp [hu']) ?_
      rw [he.faults_eq]
      exact hf
    · -- impossible in a settled state: the removal changed the state
      rw [hchar _, if_pos rfl] at hsrc
      cases hsrc
    · -- impossible in a settled state: the move changed the state
      rw [hchar _, if_pos rfl] at hgnone
      cases hgnone
  · rcases hsc with ⟨v, hv, hnf, ho, ⟨hdst, _⟩ | ⟨hgnone, _, hchar⟩⟩ |
      ⟨ho, _, ⟨hf⟩ | ⟨v, hv, hnf, hgnone, hgf⟩⟩
    · -- import already deduplicated: source and destination survive
      rw [ho]
      have hv' : fs'.lookup p = some v := by
        rcases he.keep _ v hv with hk | ⟨htd, _, _⟩
        · exact hk
        · rw [Hptd] at htd; cases htd
      obtain ⟨u, hu⟩ := Option.isSome_iff_exists.mp hdst
      have hu' : fs'.lookup (joinPath gd
          (get_hash_filename v ((extension p).getD "bin".data))) = some u := by
        rcases he.keep _ u hu with hk | ⟨htd, _, _⟩
        · exact hk
        · exact absurd ⟨htd, underDir_joinPath gd _ (get_hash_filename_not_abs _ _)⟩
            (hdisj _)
      have hnf' : p ∉ fs'.faults := by rw [he.faults_eq]; exact hnf
      exact commitStep_abs_import_hit td gd fs' p v hT habs hv' hnf' (by simp [hu'])
    · -- impossible in a settled state: the write changed the state
      rw [hchar _, if_pos rfl] at hgnone
      cases hgnone
    · -- faulted read: the file and the fault survive
      rw [ho]
      obtain ⟨w, hw⟩ := Option.isSome_iff_exists.mp hsome
      have hw' : fs'.lookup p = some w := by
        rcases he.keep _ w hw with hk | ⟨_, hnf, _⟩
        · exact hk
        · exact absurd hf hnf
      refine commitStep_abs_read_fault td gd fs' p hT habs (by simp [hw']) ?_
      rw [he.faults_eq]
      exact hf
    · -- faulted destination write: source survives, destination stays absent
      rw [ho]
      have hv' : fs'.lookup p = some v := by
        rcases he.keep _ v hv with hk | ⟨htd, _, _⟩
        · exact hk
        · rw [Hptd] at htd; cases htd
      have hnf' : p ∉ fs'.faults := by rw [he.faults_eq]; exact hnf
      have hgnone' : fs'.lookup (joinPath gd
          (get_hash_filename v ((extension p).getD "bin".data))) = none := by
        cases hl : fs'.lookup (joinPath gd
            (get_hash_filename v ((extension p).getD "bin".data))) with
        | none => rfl
        | some w =>
            rcases he.new _ w hl with hk | ⟨_, hnfd, _⟩
            · rw [hk] at hgnone; cases hgnone
            · exact absurd hgf hnfd
      have hgf' : joinPath gd (get_hash_filename v ((extension p).getD "bin".data)) ∈
          fs'.faults := by rw [he.faults_eq]; exact hgf
      exact commitStep_abs_write_fault td gd fs' p v hT habs hv' hnf' hgnone' hgf'
  · -- passthrough: the condition stays false
    rw [ho]
    refine commitStep_passthrough td gd fs' p hT ?_
    cases hab : isAbsolute p with
    | false => simp [hab]
    | true =>
        simp only [hab, Bool.true_and] at hA ⊢
        have hnone : fs.lookup p = none := pathExists_false_lookup fs p hA
        have hnone' : fs'.lookup p = none := by
          cases hl : fs'.lookup p with
          | none => rfl
          | some w =>
              rcases he.new _ w hl with hk | ⟨hgd, _, _⟩
              · rw [hk] at hnone; cases hnone
              · rw [Hpgd] at hgd; cases hgd
        simp [FS.pathExists, hnone']

/-! ## C5: idempotence of `commit_assets` -/

theorem commitList_idem (td gd : Path) (l : List Path)
    (Hdisj : ∀ r : Path, ¬(underDir td r = true ∧ underDir gd r = true)) :
    ∀ (fs : FS) (os : List Path) (fs₁ : FS),
      (∀ p ∈ l, underDir td p = false ∧ underDir gd p = false ∧
        (startsWithL tempPre p = true → isAbsolute (p.drop 6) = false)) →
      commitList td gd fs l = .ok (os, fs₁) →
      commitList td gd fs₁ l = .ok (os, fs₁) := by
  induction l with
  | nil =>
      intro fs os fs₁ _ h
      unfold commitList at h ⊢
      cases h
      rfl
  | cons p rest ih =>
      intro fs os fs₁ Hin h
      unfold commitList at h
      cases hstep : commitStep td gd fs p with
      | error e => rw [hstep] at h; cases h
      | ok pair =>
          obtain ⟨o, fs'⟩ := pair
          rw [hstep] at h
          dsimp only at h
          cases hrest : commitList td gd fs' rest with
          | error e => rw [hrest] at h; cases h
          | ok pair2 =>
              obtain ⟨os₂, fs₂⟩ := pair2
              rw [hrest] at h
              dsimp only at h
              cases h
              have hp := Hin p (List.mem_cons_self p rest)
              have hsettled : Settled td gd fs₁ p o :=
                settled_preserved td gd fs' fs₁ p o Hdisj hp.2.2 hp.1 hp.2.1
                  (commitStep_settles td gd fs p o fs' Hdisj hp.2.2 hp.2.1 hstep)
                  (commitList_evol td gd rest Hdisj fs' os₂ fs₁
                    (fun q hq => (Hin q (List.mem_cons_of_mem _ hq)).2.2) hrest)
              have hst : commitStep td gd fs₁ p = .ok (o, fs₁) := hsettled
              have hrest' : commitList td gd fs₁ rest = .ok (os₂, fs₁) :=
                ih fs' os₂ fs₁ (fun q hq => Hin q (List.mem_cons_of_mem _ hq)) hrest
              unfold commitList
              rw [hst]
              dsimp only
              rw [hrest']

/-- Claim C5 (amended): `commit_assets` is idempotent provided no input path
string points into the temp directory or the project's asset directory (so
the batch's own moves can neither delete nor create a file at a path that is
also passed as an absolute input): if a first call returns `Ok` with output
`out` and final state `fs₁`, a second call with the same inputs on `fs₁`
succeeds, returns the same `out`, and leaves `fs₁` unchanged — no duplicate
files, no error even though the moved temp sources are gone. -/
theorem commit_assets_idempotent (tempDir : Path) (fs : FS) (root : Path)
    (paths out : List Path) (fs₁ : FS)
    (Hdisj : ∀ r : Path, ¬(underDir tempDir r = true ∧
      underDir (joinPath root "assets".data) r = true))
    (Hin : ∀ p ∈ paths, underDir tempDir p = false ∧
      underDir (joinPath root "assets".data) p = false ∧
      (startsWithL tempPre p = true → isAbsolute (p.drop 6) = false))
    (h : commit_assets tempDir fs root paths = .ok (out, fs₁)) :
    commit_assets tempDir fs₁ root paths = .ok (out, fs₁) :=
  commitList_idem tempDir (joinPath root "assets".data) paths Hdisj fs out fs₁ Hin h

theorem commit_assets_idempotent_witness :
    commit_assets "/tmp_images1".data
        ⟨[("/proj/assets/a.png".data, [7])], [], []⟩ "/proj".data
        ["_temp/a.png".data, "x".data] =
      .ok (["assets/a.png".data, "x".data],
        ⟨[("/proj/assets/a.png".data, [7])], [], []⟩) :=
  commit_assets_idempotent "/tmp_images1".data
    ⟨[("/tmp_images1/a.png".data, [7])], [], []⟩ "/proj".data
    ["_temp/a.png".data, "x".data] ["assets/a.png".data, "x".data]
    ⟨[("/proj/assets/a.png".data, [7])], [], []⟩
    (underDir_disjoint "/tmp_images1".data "/proj/assets".data (by decide)
      (by decide))
    (by decide) (by decide)

/-- Claim C5 (counterexample to the claim as stated): with an input list that
passes the temp file's own absolute path alongside its `_temp/` form, the
first call imports the absolute file into the asset store and then moves the
temp source away; the second call no longer finds the absolute path and
passes it through unchanged, so the two calls return different output lists.
The state is `/t/a.png` holding the empty byte string (content hash
`e3b0c4...b855`). -/
theorem commit_assets_idem_counterexample :
    commit_assets "/t".data ⟨[("/t/a.png".data, [])], [], []⟩ "/p".data
        ["/t/a.png".data, "_temp/a.png".data] =
      .ok (["assets/e3b0c44298fc1c149afbf4c8996fb92427ae41e4649b934ca495991b7852b855.png".data,
            "assets/a.png".data],
        ⟨[("/p/assets/a.png".data, []),
          ("/p/assets/e3b0c44298fc1c149afbf4c8996fb92427ae41e4649b934ca495991b7852b855.png".data, [])],
         [], []⟩) ∧
    commit_assets "/t".data
        ⟨[("/p/assets/a.png".data, []),
          ("/p/assets/e3b0c44298fc1c149afbf4c8996fb92427ae41e4649b934ca495991b7852b855.png".data, [])],
         [], []⟩ "/p".data ["/t/a.png".data, "_temp/a.png".data] =
      .ok (["/t/a.png".data, "assets/a.png".data],
        ⟨[("/p/assets/a.png".data, []),
          ("/p/assets/e3b0c44298fc1c149afbf4c8996fb92427ae41e4649b934ca495991b7852b855.png".data, [])],
         [], []⟩) ∧
    (["assets/e3b0c44298fc1c149afbf4c8996fb92427ae41e4649b934ca495991b7852b855.png".data,
      "assets/a.png".data] : List Path) ≠
      ["/t/a.png".data, "assets/a.png".data] := by
  decide

end NeonMind

